import Mathlib

/-!
# Verification of the `cmyui` HTTP server (`cmyui/web.py`)

A shallow embedding, in Lean 4, of the request parser, the
case-insensitive header dictionary, the response writer and the dispatch
logic of the asynchronous HTTP server in `cmyui/web.py`, together with
proofs and refutations of the specification claims about them.

Modelling conventions:
* byte strings (`bytes`) and text strings (`str`) are both modelled as
  `List Char` (the streams involved are ASCII; `decode()` is the identity
  under this convention);
* Python exceptions are modelled with `Option`/explicit error flags;
* the socket is modelled as the list of byte chunks successively returned
  by `sock_recv`; an exhausted list models a read that would block forever;
* Python `dict` is modelled as an association list whose update replaces
  the first matching binding in place (insertion order preserved), which
  matches `dict` lookup/update semantics.
-/

set_option autoImplicit false
set_option maxRecDepth 10000

namespace CmyuiWeb

/-- Bytes and text are both modelled as lists of characters. -/
abbrev Bytes := List Char

/-- Convenience: the character list of a string literal. -/
def str (s : String) : Bytes := s.data

/-! ## ASCII case mapping (model of Python `str.lower`/`str.upper`/`str.title`)

Python's case functions are Unicode-aware; the header keys and HTTP tokens
this server manipulates are ASCII, so we model the ASCII fragment with an
explicit uppercase/lowercase pairing table. -/

/-- The ASCII uppercase/lowercase letter pairs. -/
def caseTable : List (Char × Char) :=
  [('A','a'), ('B','b'), ('C','c'), ('D','d'), ('E','e'), ('F','f'),
   ('G','g'), ('H','h'), ('I','i'), ('J','j'), ('K','k'), ('L','l'),
   ('M','m'), ('N','n'), ('O','o'), ('P','p'), ('Q','q'), ('R','r'),
   ('S','s'), ('T','t'), ('U','u'), ('V','v'), ('W','w'), ('X','x'),
   ('Y','y'), ('Z','z')]

/-- ASCII model of `ch.lower()`. -/
def toLowerChar (c : Char) : Char :=
  match caseTable.find? (fun p => p.1 == c) with
  | some p => p.2
  | none => c

/-- ASCII model of `ch.upper()`. -/
def toUpperChar (c : Char) : Char :=
  match caseTable.find? (fun p => p.2 == c) with
  | some p => p.1
  | none => c

/-- ASCII model of `ch.isalpha()` (cased characters of the table). -/
def isAlphaChar (c : Char) : Bool :=
  (caseTable.find? (fun p => p.1 == c || p.2 == c)).isSome

/-- Model of Python `s.lower()` (ASCII fragment). -/
def pyLower (s : Bytes) : Bytes := s.map toLowerChar

/-- Model of Python `s.upper()` (ASCII fragment). -/
def pyUpper (s : Bytes) : Bytes := s.map toUpperChar

/-- One step of Python `str.title`: the boolean says whether the previous
character was a cased letter. -/
def pyTitleAux : Bool → Bytes → Bytes
  | _, [] => []
  | prevAlpha, c :: rest =>
    (if isAlphaChar c then (if prevAlpha then toLowerChar c else toUpperChar c) else c)
      :: pyTitleAux (isAlphaChar c) rest

/-- Model of Python `s.title()` (ASCII fragment): the first letter of every
maximal run of letters is uppercased, the rest lowercased. -/
def pyTitle (s : Bytes) : Bytes := pyTitleAux false s

/-- Python whitespace characters stripped by `str.lstrip()`. -/
def isPySpace (c : Char) : Bool :=
  c == ' ' || c == '\t' || c == '\n' || c == '\r' || c == '\x0b' || c == '\x0c'

/-- Model of Python `s.lstrip()`. -/
def pyLstrip (s : Bytes) : Bytes := s.dropWhile isPySpace

/-! ## Splitting primitives (models of Python `split`/`find`) -/

/-- Python `s.split(sep, 1)` for a one-character separator: the part
before the first `sep`, and — when `sep` occurs — the part after it
(`none` models Python returning a single-element list). -/
def splitFirst (sep : Char) : Bytes → Bytes × Option Bytes
  | [] => ([], none)
  | c :: rest =>
    if c = sep then ([], some rest)
    else
      let r := splitFirst sep rest
      (c :: r.1, r.2)

/-- Python `s.split(sep)` for a one-character separator. -/
def splitChar (sep : Char) : Bytes → List Bytes
  | [] => [[]]
  | c :: rest =>
    let r := splitChar sep rest
    if c = sep then [] :: r
    else
      match r with
      | [] => [[c]]
      | p :: ps => (c :: p) :: ps

/-- Leftmost-occurrence split on a substring: `some (before, after)` with
`l = before ++ pat ++ after` when `pat` occurs in `l`.  This models both
`bytes.split(pat, 1)` (two pieces) and `bytes.find(pat)` (the index is
`before.length`). -/
def splitFirstSub (pat : Bytes) : Bytes → Option (Bytes × Bytes)
  | [] => if pat = [] then some ([], []) else none
  | c :: rest =>
    if pat.isPrefixOf (c :: rest) then some ([], (c :: rest).drop pat.length)
    else (splitFirstSub pat rest).map (fun p => (c :: p.1, p.2))

/-- Python `pat in s` for byte strings. -/
def containsSub (pat l : Bytes) : Bool := (splitFirstSub pat l).isSome

/-- Helper for `splitSub`: fuel-bounded iteration of `splitFirstSub`.  For a
nonempty `pat` each round strictly shrinks the remainder, so `l.length + 1`
rounds always suffice. -/
def splitSubFuel (pat : Bytes) : Nat → Bytes → List Bytes
  | 0, l => [l]
  | fuel + 1, l =>
    match splitFirstSub pat l with
    | none => [l]
    | some (a, b) => a :: splitSubFuel pat fuel b

/-- Python `s.split(pat)` for a nonempty substring separator. -/
def splitSub (pat : Bytes) (l : Bytes) : List Bytes :=
  splitSubFuel pat (l.length + 1) l

/-! ## Association lists with Python `dict` semantics -/

/-- `dict` update: replace the first binding of `k` in place, else append. -/
def aset {α : Type} (k : Bytes) (v : α) : List (Bytes × α) → List (Bytes × α)
  | [] => [(k, v)]
  | (k', v') :: rest => if k' = k then (k, v) :: rest else (k', v') :: aset k v rest

/-- `dict` lookup. -/
def aget {α : Type} (k : Bytes) : List (Bytes × α) → Option α
  | [] => none
  | (k', v') :: rest => if k' = k then some v' else aget k rest

/-! ## `CaseInsensitiveDict` (web.py lines 267–296)

The Python class subclasses `dict` and keeps a side table `keystore`
mapping the lowercased key to the concrete key most recently used to set
it.  We model the underlying `dict` as the field `store` and the side
table as `keystore`. -/

structure CIDict (α : Type) where
  keystore : List (Bytes × Bytes)
  store : List (Bytes × α)
deriving DecidableEq

namespace CIDict

variable {α : Type}

/-- `CaseInsensitiveDict()`, empty. -/
def empty : CIDict α := ⟨[], []⟩

/-- `__setitem__`: `self.keystore[k.lower()] = k; super().__setitem__(k, v)`. -/
def setItem (d : CIDict α) (k : Bytes) (v : α) : CIDict α :=
  ⟨aset (pyLower k) k d.keystore, aset k v d.store⟩

/-- The key-redirection performed by `__getitem__`/`__contains__`/`get`:
`if k_lower in self.keystore: k = self.keystore[k_lower]`. -/
def resolve (d : CIDict α) (k : Bytes) : Bytes :=
  match aget (pyLower k) d.keystore with
  | some k0 => k0
  | none => k

/-- `__getitem__` (raises `KeyError` on a missing key: modelled as `none`). -/
def getItem (d : CIDict α) (k : Bytes) : Option α :=
  aget (d.resolve k) d.store

/-- `get(k, failobj=None)`. -/
def get (d : CIDict α) (k : Bytes) : Option α :=
  aget (d.resolve k) d.store

/-- `__contains__`. -/
def contains (d : CIDict α) (k : Bytes) : Bool :=
  (aget (d.resolve k) d.store).isSome

end CIDict

/-! ### Behaviour of `CaseInsensitiveDict` under sequences of `__setitem__` -/

/-- A `CaseInsensitiveDict` built from empty by a sequence of `__setitem__`
calls, applied left to right. -/
def build {α : Type} (ops : List (Bytes × α)) : CIDict α :=
  ops.foldl (fun d kv => d.setItem kv.1 kv.2) CIDict.empty

/-- The value of the most recent (rightmost) set operation whose key
lowercases to `lk`. -/
def lastValueFor {α : Type} (lk : Bytes) (ops : List (Bytes × α)) : Option α :=
  ops.foldl (fun acc kv => if pyLower kv.1 = lk then some kv.2 else acc) none

/-- The representation invariant tying a `CIDict` to the abstract map `m`
from lowercased keys to values: `keystore` entries are lower-consistent and
point at a concrete key holding the abstract value, and lowercase classes
absent from `keystore` have no concrete key in the store at all. -/
def Inv {α : Type} (d : CIDict α) (m : Bytes → Option α) : Prop :=
  (∀ lk k0, aget lk d.keystore = some k0 → pyLower k0 = lk ∧ aget k0 d.store = m lk) ∧
  (∀ lk, aget lk d.keystore = none →
    m lk = none ∧ ∀ k', pyLower k' = lk → aget k' d.store = none)

/-! ## The request-line regular expression (web.py lines 261–265)

`req_line_re` is
`^(GET|HEAD|POST|PUT|DELETE|PATCH|OPTIONS) (/[^? ]*)(\?[^ ]+)? HTTP/(1\.0|1\.1|2\.0|3\.0)$`.
Because the path group excludes both `?` and space, and the text after the
path group must begin with `?` or space, greedy matching is deterministic
and the regex is equivalent to the longest-munch matcher below. -/

/-- The method alternatives of `req_line_re`, in order. -/
def httpMethods : List Bytes :=
  [str "GET", str "HEAD", str "POST", str "PUT",
   str "DELETE", str "PATCH", str "OPTIONS"]

/-- The version alternatives of `req_line_re`, in order. -/
def httpVersions : List Bytes :=
  [str "1.0", str "1.1", str "2.0", str "3.0"]

/-- The named groups of a successful `req_line_re` match.  `args` is the
`(?P<args>\?[^ ]+)?` group, including its leading `?`, exactly as Python's
`m['args']`. -/
structure ReqLine where
  cmd : Bytes
  path : Bytes
  args : Option Bytes
  httpver : Bytes
deriving Repr, DecidableEq

/-- Match the fixed tail ` HTTP/(1\.0|1\.1|2\.0|3\.0)$`, returning the
version group.  Python's `$` (no `re.MULTILINE`) matches at the end of the
string *or just before a single trailing newline*, so after the version the
remainder must be empty or exactly `\n`. -/
def reqTail (l : Bytes) : Option Bytes :=
  httpVersions.find?
    (fun v => l == str " HTTP/" ++ v || l == str " HTTP/" ++ v ++ ['\n'])

/-- The optional `(?P<args>\?[^ ]+)?` group followed by the tail, applied to
what remains after the path group. -/
def reqLineAfterPath (m path rest2 : Bytes) : Option ReqLine :=
  match rest2 with
  | '?' :: r3 =>
    if (r3.takeWhile (fun c => c != ' ')).isEmpty then none
    else
      (reqTail (r3.dropWhile (fun c => c != ' '))).map
        (fun v => ⟨m, path, some ('?' :: r3.takeWhile (fun c => c != ' ')), v⟩)
  | _ => (reqTail rest2).map (fun v => ⟨m, path, none, v⟩)

/-- Model of `req_line_re.match(line)`. -/
def reqLineMatch (l : Bytes) : Option ReqLine :=
  match httpMethods.find? (fun m => (m ++ [' ']).isPrefixOf l) with
  | none => none
  | some m =>
    match l.drop (m.length + 1) with
    | '/' :: rest' =>
      reqLineAfterPath m
        (('/' :: rest').takeWhile (fun c => c != '?' && c != ' '))
        (('/' :: rest').dropWhile (fun c => c != '?' && c != ' '))
    | _ => none

/-! ## `Connection` request state (web.py lines 298–331) -/

/-- The request/response state of a `Connection`.  `httpver` keeps the
matched version token (Python stores `float(m['httpver'])`). -/
structure Conn where
  headers : CIDict Bytes := CIDict.empty
  body : Option Bytes := none
  cmd : Bytes := []
  path : Bytes := []
  httpver : Bytes := []
  args : List (Bytes × Bytes) := []
  multipartArgs : List (Bytes × Bytes) := []
  files : List (Bytes × Bytes) := []
  respHeaders : List Bytes := []
deriving DecidableEq

/-- A freshly constructed `Connection`. -/
def Conn.init : Conn := {}

/-! ## `Connection.parse_headers` (web.py lines 334–372) -/

def CRLF : Bytes := str "\r\n"
def CRLFCRLF : Bytes := str "\r\n\r\n"

/-- Python `s.split('\r\n')` (specialised structural version of
`splitSub CRLF`, used on header blocks). -/
def splitCRLF : Bytes → List Bytes
  | [] => [[]]
  | '\r' :: '\n' :: rest => [] :: splitCRLF rest
  | c :: rest =>
    match splitCRLF rest with
    | [] => [[c]]
    | p :: ps => (c :: p) :: ps

/-- The header-parsing loop of `parse_headers`: each line is split on the
first `:`; a line with no `:` aborts the loop (Python's early `return`),
keeping the headers stored so far.  The boolean reports the abort.
Keys are stored as `key.title()`, values as `value.lstrip()`. -/
def parseHeadersLoop : CIDict Bytes → List Bytes → CIDict Bytes × Bool
  | hdrs, [] => (hdrs, false)
  | hdrs, line :: rest =>
    match splitFirst ':' line with
    | (_, none) => (hdrs, true)
    | (k, some v) => parseHeadersLoop (hdrs.setItem (pyTitle k) (pyLstrip v)) rest

/-- The query-argument loop of `parse_headers`: each `&`-separated field is
split on the first `=`; a field with no `=` aborts the loop, keeping the
arguments stored so far. -/
def parseArgsLoop : List (Bytes × Bytes) → List Bytes → List (Bytes × Bytes) × Bool
  | args, [] => (args, false)
  | args, p :: rest =>
    match splitFirst '=' p with
    | (_, none) => (args, true)
    | (k, some v) => parseArgsLoop (aset k v args) rest

/-- The request line slice `data[:delim]` (with Python's `find` returning
`-1` when `\r\n` is absent, so the slice is then `data[:-1]`). -/
def reqLineOf (data : Bytes) : Bytes :=
  match splitFirstSub CRLF data with
  | some (a, _) => a
  | none => data.take (data.length - 1)

/-- The header lines `data[delim+2:].split('\r\n')` (when `\r\n` is
absent the slice is `data[1:]`, a single line since `data` has no CRLF). -/
def hdrLinesOf (data : Bytes) : List Bytes :=
  match splitFirstSub CRLF data with
  | some (_, b) => splitCRLF b
  | none => [data.drop 1]

/-- Model of `Connection.parse_headers(data)`.  `data` is the decoded bytes
before the `\r\n\r\n` delimiter, exactly as passed by `Connection.read`. -/
def parseHeaders (conn0 : Conn) (data : Bytes) : Conn :=
  match reqLineMatch (reqLineOf data) with
  | none => conn0
  | some m =>
    let c1 := { conn0 with cmd := m.cmd, httpver := m.httpver, path := m.path }
    let parsed := parseHeadersLoop c1.headers (hdrLinesOf data)
    let c2 := { c1 with headers := parsed.1 }
    if parsed.2 then c2
    else
      match m.args with
      | none => c2
      | some a =>
        { c2 with args := (parseArgsLoop c2.args (splitChar '&' (a.drop 1))).1 }

/-! ## `Connection.parse_multipart` (web.py lines 374–409) -/

/-- Python `l[:-n]`. -/
def sliceToNegEnd (n : Nat) (l : Bytes) : Bytes := l.take (l.length - n)

/-- The ways `parse_multipart` raises.  Where the source calls
`breakpoint()` it crashes on the very next line anyway (`IndexError` /
`KeyError`), so those paths are failures of the enclosing task. -/
inductive MultipartErr where
  | noContentType   -- `self.headers['Content-Type']` raised `KeyError`
  | noBoundary      -- `.split('=', 1)[1]` raised `IndexError`
  | noBody          -- `self.body.split` on `None` raised `AttributeError`
  | noHeaderBody    -- a part without `\r\n\r\n` fails the tuple unpacking
  | badPartHeader   -- a part header line without `:` (`breakpoint`, then `IndexError`)
  | noDisposition   -- a part without `Content-Disposition` (`breakpoint`, then `KeyError`)
  | badAttr         -- a disposition attribute without `=` (`breakpoint`, then `IndexError`)
  | noName          -- attributes with neither `filename` nor `name` (`KeyError`)
deriving DecidableEq, Repr

/-- The per-part header loop of `parse_multipart`: plain `dict`, keys kept
verbatim, values `lstrip`ped. -/
def partHeadersLoop : List (Bytes × Bytes) → List Bytes →
    List (Bytes × Bytes) × Option MultipartErr
  | hdrs, [] => (hdrs, none)
  | hdrs, line :: rest =>
    match splitFirst ':' line with
    | (_, none) => (hdrs, some .badPartHeader)
    | (k, some v) => partHeadersLoop (aset k (pyLstrip v) hdrs) rest

/-- The `Content-Disposition` attribute loop: keys `lstrip`ped, values
dequoted by `[1:-1]`. -/
def partAttrsLoop : List (Bytes × Bytes) → List Bytes →
    List (Bytes × Bytes) × Option MultipartErr
  | attrs, [] => (attrs, none)
  | attrs, attr :: rest =>
    match splitFirst '=' attr with
    | (_, none) => (attrs, some .badAttr)
    | (k, some v) =>
      partAttrsLoop (aset (pyLstrip k) (sliceToNegEnd 1 (v.drop 1)) attrs) rest

/-- One iteration of the part loop of `parse_multipart`. -/
def processPart (conn : Conn) (part : Bytes) : Conn × Option MultipartErr :=
  match splitFirstSub CRLFCRLF part with
  | none => (conn, some .noHeaderBody)
  | some (hdrsB, bodyB) =>
    match partHeadersLoop [] ((splitCRLF hdrsB).drop 1) with
    | (_, some e) => (conn, some e)
    | (hdrs, none) =>
      match aget (str "Content-Disposition") hdrs with
      | none => (conn, some .noDisposition)
      | some cd =>
        match partAttrsLoop [] ((splitChar ';' cd).drop 1) with
        | (_, some e) => (conn, some e)
        | (attrs, none) =>
          match aget (str "filename") attrs with
          | some fn =>
            ({ conn with files := aset fn (sliceToNegEnd 2 bodyB) conn.files }, none)
          | none =>
            match aget (str "name") attrs with
            | none => (conn, some .noName)
            | some nm =>
              ({ conn with
                  multipartArgs := aset nm (sliceToNegEnd 2 bodyB) conn.multipartArgs },
                none)

/-- The part loop of `parse_multipart`; an exception aborts the loop but the
mutations already made to the connection persist. -/
def processParts : Conn → List Bytes → Conn × Option MultipartErr
  | conn, [] => (conn, none)
  | conn, p :: rest =>
    match processPart conn p with
    | (c, none) => processParts c rest
    | (c, some e) => (c, some e)

/-- Model of `Connection.parse_multipart`. -/
def parseMultipart (conn : Conn) : Conn × Option MultipartErr :=
  match conn.headers.getItem (str "Content-Type") with
  | none => (conn, some .noContentType)
  | some ct =>
    match (splitFirst '=' ct).2 with
    | none => (conn, some .noBoundary)
    | some boundary =>
      match conn.body with
      | none => (conn, some .noBody)
      | some body =>
        processParts conn
          (((splitSub (str "--" ++ boundary) body).drop 1).filter
            (fun p => !(p == str "--\r\n")))

/-- A multipart part whose header block parses cleanly but stores no
`Content-Disposition` key — the situation C3 is about. -/
def partLacksDisposition (p : Bytes) : Prop :=
  ∃ hdrsB bodyB hdrs,
    splitFirstSub CRLFCRLF p = some (hdrsB, bodyB) ∧
    partHeadersLoop [] ((splitCRLF hdrsB).drop 1) = (hdrs, none) ∧
    aget (str "Content-Disposition") hdrs = none

/-! ## `Connection.read` (web.py lines 411–470)

The socket is a list of byte chunks, each the result of one
`sock_recv`/`sock_recv_into`; an exhausted list models a socket on which a
further read would block (or spin) forever. -/

inductive ReadErr where
  | blocked               -- the socket ran dry: the coroutine never returns
  | badLength             -- `int()` raised `ValueError` on the `Content-Length` value
  | negAlloc              -- `bytearray(to_read)` raised `ValueError: negative count`
  | multipart (e : MultipartErr)
deriving DecidableEq, Repr

/-- After a leading digit: each further character is a digit, or a single
underscore that must be followed by a digit (CPython's digit grouping:
`int('1_0') = 10`, while `'_1'`, `'1_'` and `'1__0'` all raise). -/
def digitsValGo : Nat → Bytes → Option Nat
  | acc, [] => some acc
  | _, ['_'] => none
  | acc, '_' :: c :: rest =>
    if '0' ≤ c ∧ c ≤ '9' then digitsValGo (acc * 10 + (c.toNat - 48)) rest else none
  | acc, c :: rest =>
    if '0' ≤ c ∧ c ≤ '9' then digitsValGo (acc * 10 + (c.toNat - 48)) rest else none

/-- The value of a nonempty digit string, with CPython underscore grouping. -/
def digitsVal (l : Bytes) : Option Nat :=
  match l with
  | [] => none
  | c :: rest =>
    if '0' ≤ c ∧ c ≤ '9' then digitsValGo (c.toNat - 48) rest else none

/-- Model of Python `int(s)` on strings: optional surrounding whitespace,
optional sign, decimal digits. -/
def pyInt (s : Bytes) : Option Int :=
  match ((s.dropWhile isPySpace).reverse.dropWhile isPySpace).reverse with
  | '-' :: ds => (digitsVal ds).map (fun n => -(n : Int))
  | '+' :: ds => (digitsVal ds).map (fun n => (n : Int))
  | ds => (digitsVal ds).map (fun n => (n : Int))

/-- The header-reading loop of `read`: accumulate `sock_recv` chunks until
the buffer contains `\r\n\r\n` (the emptiness test runs before each read,
starting from an empty buffer). -/
def recvHeaders (acc : Bytes) (chunks : List Bytes) : Option (Bytes × List Bytes) :=
  if containsSub CRLFCRLF acc then some (acc, chunks)
  else
    match chunks with
    | [] => none
    | c :: rest => recvHeaders (acc ++ c) rest

/-- The tail of `read`: `if self.cmd == 'POST'` and the `Content-Type` is
`multipart/form-data…`, run `parse_multipart`. -/
def readPostMultipart (conn : Conn) : Conn × Option ReadErr :=
  if conn.cmd = str "POST" then
    match conn.headers.getItem (str "Content-Type") with
    | some ct =>
      if (str "multipart/form-data").isPrefixOf ct then
        match parseMultipart conn with
        | (c, e) => (c, e.map ReadErr.multipart)
      else (conn, none)
    | none => (conn, none)
  else (conn, none)

/-- Model of `Connection.read`: reads headers, parses them, then reads
exactly `Content-Length - already_read` further bytes when a
`Content-Length` header was stored.  Returns the final connection state and
the exception, if one escaped. -/
def read (conn0 : Conn) (chunks : List Bytes) : Conn × Option ReadErr :=
  match recvHeaders [] chunks with
  | none => (conn0, some .blocked)
  | some (buf, rest) =>
    match splitFirstSub CRLFCRLF buf with
    | none => (conn0, some .blocked)   -- unreachable: `recvHeaders` found the delimiter
    | some (hdrData, tempBuf) =>
      match parseHeaders conn0 hdrData with
      | conn =>
        match conn.headers.getItem (str "Content-Length") with
        | none => (conn, none)
        | some clv =>
          match pyInt clv with
          | none => (conn, some .badLength)
          | some n =>
            if (tempBuf.length : Int) = n then
              readPostMultipart { conn with body := some tempBuf }
            else if n - (tempBuf.length : Int) < 0 then
              (conn, some .negAlloc)
            else if (rest.flatten.length : Int) < n - (tempBuf.length : Int) then
              (conn, some .blocked)
            else
              readPostMultipart { conn with
                body := some (tempBuf ++ rest.flatten.take (n - (tempBuf.length : Int)).toNat) }

/-! ## Router and `Server.dispatch` (web.py lines 505–688)

Handlers are modelled as pure functions from the connection to Python's
three possible return shapes (`None`, bytes, or a `(status, bytes)` tuple).
`Route.cond` and `Domain.cond` are the predicates `Route.__init__` /
`Domain.__init__` compute once at registration; `routes` and `domains` are
lists in iteration order (Python uses sets, whose iteration order the spec
itself calls registration-order-dependent and unpinned). -/

/-- The three shapes a route handler may return. -/
inductive PyResp where
  | none
  | body (b : Bytes)
  | withCode (code : Int) (b : Bytes)

structure Route where
  methods : List Bytes
  cond : Bytes → Bool
  handler : Conn → PyResp

/-- `Route.matches`: `method in self.methods and self.cond(path)`. -/
def Route.matches (r : Route) (path method : Bytes) : Bool :=
  r.methods.contains method && r.cond path

structure Domain where
  cond : Bytes → Bool
  routes : List Route

/-- `RouteMap.find_route`. -/
def Domain.findRoute (d : Domain) (path method : Bytes) : Option Route :=
  d.routes.find? (fun r => r.matches path method)

structure Server where
  gzip : Nat
  domains : List Domain

/-- `Server.find_domain`. -/
def Server.findDomain (s : Server) (host : Bytes) : Option Domain :=
  s.domains.find? (fun d => d.cond host)

/-- A response body, with gzip compression kept abstract: `gzip.compress`
is an external library call whose output bytes none of the claims inspect,
so a compressed body is represented as a tagged constructor recording the
compression level and the input. -/
inductive RespBody where
  | raw (b : Bytes)
  | gzipped (level : Nat) (b : Bytes)
deriving DecidableEq, Repr

/-- Model of `gzip.compress(resp, self.gzip)`. -/
def gzipCompress (level : Nat) (b : Bytes) : RespBody := .gzipped level b

def RespBody.isCompressed : RespBody → Bool
  | .raw _ => false
  | .gzipped _ _ => true

/-- `Connection.add_resp_header` with the default index `-1` (append). -/
def Conn.addRespHeader (c : Conn) (h : Bytes) : Conn :=
  { c with respHeaders := c.respHeaders ++ [h] }

/-- What `Server.dispatch` passes to `conn.send`: the status code, the
(possibly compressed) body, and the connection state (whose response
headers may have gained `Content-Encoding: gzip`). -/
structure DispatchResult where
  code : Int
  body : RespBody
  conn : Conn

/-- Model of `Server.dispatch`.  `none` models the `KeyError` raised by
`conn.headers['Host']` when the header is absent (unreachable from
`Server.handle`, which checks first). -/
def Server.dispatch (srv : Server) (conn : Conn) : Option DispatchResult :=
  match conn.headers.getItem (str "Host") with
  | none => none
  | some host =>
    match
      (match srv.findDomain host with
       | none => none
       | some d =>
         match d.findRoute conn.path conn.cmd with
         | none => none
         | some route =>
           -- `resp = await route.handler(conn) or b''`, then
           -- `code, resp = resp if isinstance(resp, tuple) else (200, resp)`
           match route.handler conn with
           | .none => some ((200 : Int), ([] : Bytes))
           | .body b => some ((200 : Int), b)
           | .withCode c b => some (c, b)) with
    | some (code, b) =>
      if 0 < srv.gzip then
        some ⟨code, gzipCompress srv.gzip b,
              conn.addRespHeader (str "Content-Encoding: gzip")⟩
      else some ⟨code, .raw b, conn⟩
    | none => some ⟨404, .raw (str "Not Found."), conn⟩

/-! ## `Connection.send` (web.py lines 474–503) -/

/-- The `_httpstatus_str` table (web.py lines 50–123). -/
def httpStatusTable : List (Int × String) :=
  [(100, "Continue"), (101, "Switching Protocols"), (102, "Processing"),
   (200, "Ok"), (201, "Created"), (202, "Accepted"),
   (203, "Non-authoritative Information"), (204, "No Content"),
   (205, "Reset Content"), (206, "Partial Content"), (207, "Multi-Status"),
   (208, "Already Reported"), (226, "IM Used"),
   (300, "Multiple Choices"), (301, "Moved Permanently"), (302, "Found"),
   (303, "See Other"), (304, "Not Modified"), (305, "Use Proxy"),
   (307, "Temporary Redirect"), (308, "Permanent Redirect"),
   (400, "Bad Request"), (401, "Unauthorized"), (402, "Payment Required"),
   (403, "Forbidden"), (404, "Not Found"), (405, "Method Not Allowed"),
   (406, "Not Acceptable"), (407, "Proxy Authentication Required"),
   (408, "Request Timeout"), (409, "Conflict"), (410, "Gone"),
   (411, "Length Required"), (412, "Precondition Failed"),
   (413, "Payload Too Large"), (414, "Request-URI Too Long"),
   (415, "Unsupported Media Type"), (416, "Requested Range Not Satisfiable"),
   (417, "Expectation Failed"), (418, "I'm a teapot"),
   (421, "Misdirected Request"), (422, "Unprocessable Entity"),
   (423, "Locked"), (424, "Failed Dependency"), (426, "Upgrade Required"),
   (428, "Precondition Required"), (429, "Too Many Requests"),
   (431, "Request Header Fields Too Large"),
   (444, "Connection Closed Without Response"),
   (451, "Unavailable For Legal Reasons"), (499, "Client Closed Request"),
   (500, "Internal Server Error"), (501, "Not Implemented"),
   (502, "Bad Gateway"), (503, "Service Unavailable"),
   (504, "Gateway Timeout"), (505, "HTTP Version Not Supported"),
   (506, "Variant Also Negotiates"), (507, "Insufficient Storage"),
   (508, "Loop Detected"), (510, "Not Extended"),
   (511, "Network Authentication Required"),
   (599, "Network Connect Timeout Error")]

/-- `repr(HTTPStatus(code))`, i.e. `f'{code} {_httpstatus_str[code]}'`;
`none` models the `ValueError` raised by `HTTPStatus(status)` for a code
outside the enum (the enum and the table list the same codes). -/
def statusRepr (code : Int) : Option Bytes :=
  (httpStatusTable.lookup code).map (fun r => (toString code).data ++ [' '] ++ r.data)

/-- The status line `f'HTTP/1.1 {HTTPStatus(status)!r}'.upper()`. -/
def sendStatusLine (status : Int) : Option Bytes :=
  (statusRepr status).map (fun rep => pyUpper (str "HTTP/1.1 " ++ rep))

/-- Model of `Connection.send(status, body)`: the final connection state
(with the status line inserted at index 0 and, when a body is present, a
`Content-Length` header at index 1) and the single byte string written to
the socket.  `none` models the `ValueError` of an unknown status code. -/
def Conn.send (conn : Conn) (status : Int) (body : Bytes) : Option (Conn × Bytes) :=
  match sendStatusLine status with
  | none => none
  | some line =>
    let c1 := { conn with respHeaders := conn.respHeaders.insertIdx 0 line }
    let c2 :=
      if body = [] then c1
      else { c1 with
        respHeaders :=
          c1.respHeaders.insertIdx 1
            (str "Content-Length: " ++ (toString body.length).data) }
    some (c2, List.intercalate CRLF c2.respHeaders ++ CRLFCRLF ++ body)

/-- Modelled from the spec: the repository has no client-side response
parser, but §8 requires that "re-parsing that exact byte sequence as a
client would recover status 200 and body"; a client splits the response at
the first blank line, reads the status code as the second token of the
status line, and takes everything after the blank line as the body. -/
def clientParse (resp : Bytes) : Option (Int × Bytes) :=
  match splitFirstSub CRLFCRLF resp with
  | none => none
  | some (head, body) =>
    match splitChar ' '
        (match splitFirstSub CRLF head with
         | some (l, _) => l
         | none => head) with
    | _ :: codeTok :: _ => (pyInt codeTok).map (fun c => (c, body))
    | _ => none

/-! ## `Server.handle` (web.py lines 690–723) -/

/-- The observable fate of one accepted connection under `Server.handle`:

* `readError`: `Connection.read` raised; the task dies before the `Host`
  check — no route handler runs, no response is sent, and the socket is
  closed only when the dead task is collected;
* `noHost`: parsing left no `Host` header; the socket is shut down and
  closed without dispatching — no handler runs and no response is sent;
* `dispatchError`: `dispatch` raised (unreachable: `handle` checks `Host`);
* `responded code body conn`: `dispatch` ran, `conn.send(code, body)` wrote
  a response, and the socket was then shut down and closed. -/
inductive HandleOutcome where
  | readError (e : ReadErr)
  | noHost
  | dispatchError
  | responded (code : Int) (body : RespBody) (conn : Conn)

def HandleOutcome.isResponded : HandleOutcome → Bool
  | .responded _ _ _ => true
  | _ => false

/-- Model of `Server.handle` for one client socket. -/
def Server.handle (srv : Server) (chunks : List Bytes) : HandleOutcome :=
  match read Conn.init chunks with
  | (_, some e) => .readError e
  | (conn, none) =>
    if conn.headers.contains (str "Host") then
      match srv.dispatch conn with
      | none => .dispatchError
      | some r => .responded r.code r.body r.conn
    else .noHost

/-! ### Concrete servers and connections used by the dispatch claims -/

/-- A server with compression level 6 and one catch-all GET route whose
handler returns the 2-byte body `hi`. -/
def srvGzip : Server :=
  ⟨6, [⟨fun _ => true, [⟨[str "GET"], fun _ => true, fun _ => PyResp.body (str "hi")⟩]⟩]⟩

/-- A server with compression disabled and one catch-all GET route whose
handler returns `None`. -/
def srvNoneHandler : Server :=
  ⟨0, [⟨fun _ => true, [⟨[str "GET"], fun _ => true, fun _ => PyResp.none⟩]⟩]⟩

/-- A parsed `GET / HTTP/1.1` connection with a `Host` header and no
`Accept-Encoding` header. -/
def connPlainGet : Conn := parseHeaders Conn.init (str "GET / HTTP/1.1\r\nHost: a")

/-- The connection state C3's witness feeds to `parse_multipart`: a parsed
POST whose multipart body has one part with headers but no
`Content-Disposition`. -/
def connBadPart : Conn :=
  { parseHeaders Conn.init
      (str "POST /x HTTP/1.1\r\nHost: a\r\nContent-Type: multipart/form-data; boundary=X") with
    body := some (str "--X\r\nContent-Type: text/plain\r\n\r\nv\r\n--X--\r\n") }

/-- The raw stream for C3's witness (`Content-Length` 43 = the body above). -/
def chunkBadPart : Bytes :=
  str ("POST /x HTTP/1.1\r\nHost: a\r\nContent-Type: multipart/form-data; boundary=X\r\n" ++
    "Content-Length: 43\r\n\r\n--X\r\nContent-Type: text/plain\r\n\r\nv\r\n--X--\r\n")

/-! ### C7: the parser reconstructs a well-formed request exactly

Serialisation of an abstract well-formed request, written from the wire
grammar the parser consumes (request line, `\r\n`-separated `k: v` header
lines, `&`-separated `k=v` query fields). -/

/-- One serialised header line `k: v`. -/
def headerLine (kv : Bytes × Bytes) : Bytes := kv.1 ++ str ": " ++ kv.2

/-- Header lines joined by CRLF. -/
def serializeHeaders : List (Bytes × Bytes) → Bytes
  | [] => []
  | [kv] => headerLine kv
  | kv :: rest => headerLine kv ++ CRLF ++ serializeHeaders rest

/-- Query fields `k=v` joined by `&`. -/
def serializeQuery : List (Bytes × Bytes) → Bytes
  | [] => []
  | [kv] => kv.1 ++ ['='] ++ kv.2
  | kv :: rest => kv.1 ++ ['='] ++ kv.2 ++ ['&'] ++ serializeQuery rest

/-- The serialised header block (the bytes before `\r\n\r\n`), exactly as
`Connection.read` passes it to `parse_headers`. -/
def serializeReq (method path : Bytes) (q : Option (List (Bytes × Bytes)))
    (version : Bytes) (headers : List (Bytes × Bytes)) : Bytes :=
  method ++ [' '] ++ path ++
    (match q with
     | none => []
     | some qs => '?' :: serializeQuery qs) ++
    str " HTTP/" ++ version ++ CRLF ++ serializeHeaders headers

/-! ## Theorems -/

theorem splitFirstSub_some_eq {pat l a b : Bytes}
    (h : splitFirstSub pat l = some (a, b)) : l = a ++ pat ++ b := by
  induction l generalizing a b with
  | nil =>
    by_cases hp : pat = ([] : Bytes)
    · rw [splitFirstSub, if_pos hp] at h
      cases h
      simp [hp]
    · rw [splitFirstSub, if_neg hp] at h
      cases h
  | cons c rest ih =>
    rw [splitFirstSub] at h
    by_cases hpre : pat.isPrefixOf (c :: rest)
    · rw [if_pos hpre] at h
      cases h
      have hp := List.isPrefixOf_iff_prefix.mp hpre
      have := List.prefix_iff_eq_append.mp hp
      simpa using this.symm
    · rw [if_neg hpre] at h
      cases hr : splitFirstSub pat rest with
      | none => rw [hr] at h; cases h
      | some p =>
        rw [hr] at h
        obtain ⟨p1, p2⟩ := p
        simp only [Option.map_some'] at h
        cases h
        simpa using ih hr

theorem splitFirstSub_length_lt {pat l a b : Bytes} (hp : pat ≠ [])
    (h : splitFirstSub pat l = some (a, b)) : b.length < l.length := by
  have he := splitFirstSub_some_eq h
  have : 0 < pat.length := List.length_pos.mpr hp
  rw [he]
  simp only [List.length_append]
  omega

/-- Appending more data to the right does not change the leftmost
occurrence found by `splitFirstSub`; the `after` part is extended. -/
theorem splitFirstSub_append_of_some {pat l a b : Bytes} (ext : Bytes)
    (h : splitFirstSub pat l = some (a, b)) :
    splitFirstSub pat (l ++ ext) = some (a, b ++ ext) := by
  induction l generalizing a b with
  | nil =>
    by_cases hp : pat = ([] : Bytes)
    · subst hp
      rw [splitFirstSub] at h
      simp only [if_pos rfl] at h
      cases h
      cases ext with
      | nil => simp [splitFirstSub]
      | cons c rest => simp [splitFirstSub, List.isPrefixOf]
    · rw [splitFirstSub, if_neg hp] at h
      cases h
  | cons c rest ih =>
    rw [splitFirstSub] at h
    by_cases hpre : pat.isPrefixOf (c :: rest)
    · rw [if_pos hpre] at h
      cases h
      have hp := List.isPrefixOf_iff_prefix.mp hpre
      have hple : pat.length ≤ (c :: rest).length := hp.length_le
      have hpre' : pat.isPrefixOf ((c :: rest) ++ ext) :=
        List.isPrefixOf_iff_prefix.mpr (hp.trans (List.prefix_append _ _))
      show splitFirstSub pat (c :: (rest ++ ext)) = _
      rw [splitFirstSub]
      have : pat.isPrefixOf (c :: (rest ++ ext)) := hpre'
      rw [if_pos this]
      rw [show (c :: (rest ++ ext)) = (c :: rest) ++ ext from rfl,
        List.drop_append_of_le_length hple]
    · rw [if_neg hpre] at h
      cases hr : splitFirstSub pat rest with
      | none => rw [hr] at h; cases h
      | some p =>
        obtain ⟨p1, p2⟩ := p
        rw [hr] at h
        simp only [Option.map_some'] at h
        cases h
        -- the head position still does not match: `pat` fits inside `c :: rest`
        have hrl : rest = p1 ++ pat ++ b := splitFirstSub_some_eq hr
        have hple : pat.length ≤ (c :: rest).length := by
          rw [hrl]; simp; omega
        have hpre' : ¬ pat.isPrefixOf (c :: (rest ++ ext)) := by
          rw [show (c :: (rest ++ ext)) = (c :: rest) ++ ext from rfl]
          intro hcon
          apply hpre
          have hp := List.isPrefixOf_iff_prefix.mp hcon
          have ht := List.prefix_iff_eq_take.mp hp
          rw [List.take_append_of_le_length hple] at ht
          exact List.isPrefixOf_iff_prefix.mpr (List.prefix_iff_eq_take.mpr ht)
        show splitFirstSub pat (c :: (rest ++ ext)) = _
        rw [splitFirstSub]
        rw [if_neg hpre', ih hr]
        rfl

theorem aget_aset {α : Type} (k k' : Bytes) (v : α) (l : List (Bytes × α)) :
    aget k' (aset k v l) = if k' = k then some v else aget k' l := by
  induction l with
  | nil => simp [aset, aget, eq_comm]
  | cons p rest ih =>
    obtain ⟨k0, v0⟩ := p
    by_cases h0 : k0 = k
    · subst h0
      by_cases h1 : k' = k0
      · subst h1
        simp [aset, aget]
      · have h1' : ¬ k0 = k' := fun h => h1 h.symm
        simp [aset, aget, h1, h1']
    · by_cases h1 : k' = k0
      · subst h1
        have h0' : ¬ k' = k := fun h => h0 h
        simp [aset, aget, h0, h0']
      · have h1' : ¬ k0 = k' := fun h => h1 h.symm
        simp [aset, aget, h0, h1, h1', ih]

theorem inv_empty {α : Type} : Inv (CIDict.empty : CIDict α) (fun _ => none) := by
  constructor
  · intro lk k0 hk0
    simp [CIDict.empty, aget] at hk0
  · intro lk _
    exact ⟨rfl, fun k' _ => rfl⟩

theorem inv_setItem {α : Type} {d : CIDict α} {m : Bytes → Option α}
    (h : Inv d m) (k : Bytes) (v : α) :
    Inv (d.setItem k v) (fun lk => if lk = pyLower k then some v else m lk) := by
  obtain ⟨h1, h2⟩ := h
  constructor
  · intro lk k0 hk0
    simp only [CIDict.setItem, aget_aset] at hk0
    by_cases hlk : lk = pyLower k
    · rw [if_pos hlk] at hk0
      cases hk0
      refine ⟨hlk.symm, ?_⟩
      show aget k (aset k v d.store) = if lk = pyLower k then some v else m lk
      rw [aget_aset, if_pos rfl, if_pos hlk]
    · rw [if_neg hlk] at hk0
      obtain ⟨hpl, hst⟩ := h1 lk k0 hk0
      refine ⟨hpl, ?_⟩
      have hk0k : ¬ k0 = k := fun he => hlk (by rw [← hpl, he])
      show aget k0 (aset k v d.store) = if lk = pyLower k then some v else m lk
      rw [aget_aset, if_neg hk0k, if_neg hlk]
      exact hst
  · intro lk hk
    simp only [CIDict.setItem, aget_aset] at hk
    by_cases hlk : lk = pyLower k
    · rw [if_pos hlk] at hk
      cases hk
    · rw [if_neg hlk] at hk
      obtain ⟨hm, hs⟩ := h2 lk hk
      refine ⟨?_, fun k' hk' => ?_⟩
      · show (if lk = pyLower k then some v else m lk) = none
        rw [if_neg hlk]
        exact hm
      have hkk : ¬ k' = k := fun he => hlk (by rw [← hk', he])
      show aget k' (aset k v d.store) = none
      rw [aget_aset, if_neg hkk]
      exact hs k' hk'

theorem inv_build_from {α : Type} (ops : List (Bytes × α)) :
    ∀ (d : CIDict α) (m : Bytes → Option α), Inv d m →
      Inv (ops.foldl (fun d kv => d.setItem kv.1 kv.2) d)
        (ops.foldl (fun m kv lk => if lk = pyLower kv.1 then some kv.2 else m lk) m) := by
  induction ops with
  | nil => intro d m h; exact h
  | cons kv rest ih => intro d m h; exact ih _ _ (inv_setItem h kv.1 kv.2)

theorem foldm_eq_lastValueFor {α : Type} (ops : List (Bytes × α)) :
    ∀ (m : Bytes → Option α) (lk : Bytes),
      (ops.foldl (fun m kv lk => if lk = pyLower kv.1 then some kv.2 else m lk) m) lk
        = ops.foldl (fun acc kv => if pyLower kv.1 = lk then some kv.2 else acc) (m lk) := by
  induction ops with
  | nil => intro m lk; rfl
  | cons kv rest ih =>
    intro m lk
    rw [List.foldl_cons, List.foldl_cons, ih]
    congr 1
    by_cases h : lk = pyLower kv.1
    · rw [if_pos h, if_pos h.symm]
    · rw [if_neg h, if_neg (fun he => h he.symm)]

theorem getItem_eq_of_inv {α : Type} {d : CIDict α} {m : Bytes → Option α}
    (h : Inv d m) (k' : Bytes) :
    d.getItem k' = m (pyLower k') := by
  obtain ⟨h1, h2⟩ := h
  unfold CIDict.getItem CIDict.resolve
  cases hks : aget (pyLower k') d.keystore with
  | some k0 => exact (h1 _ _ hks).2
  | none =>
    obtain ⟨hm, hs⟩ := h2 _ hks
    rw [hs k' rfl, hm]

theorem aget_aset_isSome {α : Type} (k k0 : Bytes) (v : α) (l : List (Bytes × α))
    (h : (aget k l).isSome) : (aget k (aset k0 v l)).isSome := by
  rw [aget_aset]
  by_cases hk : k = k0
  · simp [hk]
  · simpa [hk] using h

theorem foldl_store_preserves {α : Type} (ops : List (Bytes × α)) :
    ∀ (d : CIDict α) (k : Bytes), (aget k d.store).isSome →
      (aget k ((ops.foldl (fun d kv => d.setItem kv.1 kv.2) d)).store).isSome := by
  induction ops with
  | nil => intro d k h; exact h
  | cons kv rest ih =>
    intro d k h
    apply ih
    simp only [CIDict.setItem]
    exact aget_aset_isSome _ _ _ _ h

theorem foldl_store_mem_isSome {α : Type} (ops : List (Bytes × α)) :
    ∀ (d : CIDict α), ∀ kv ∈ ops,
      (aget kv.1 ((ops.foldl (fun d kv => d.setItem kv.1 kv.2) d)).store).isSome := by
  induction ops with
  | nil => intro d kv hkv; cases hkv
  | cons kv0 rest ih =>
    intro d kv hkv
    rw [List.foldl_cons]
    rcases List.mem_cons.mp hkv with h | h
    · subst h
      apply foldl_store_preserves
      simp only [CIDict.setItem]
      rw [aget_aset, if_pos rfl]
      rfl
    · exact ih _ kv h

/-- **C10.** After any sequence of `__setitem__` calls building a
`CaseInsensitiveDict` from empty, looking up any casing of a key via
`__getitem__`, `get`, or `__contains__` yields the value of the most recent
set performed under any casing of that key; and every concrete key ever used
in a set remains present in the underlying `dict` (so setting one logical
key under two casings leaves both concrete keys present). -/
theorem c10_caseInsensitiveDict_getItem_last_set_wins {α : Type}
    (ops : List (Bytes × α)) (k' : Bytes) :
    (build ops).getItem k' = lastValueFor (pyLower k') ops ∧
    (build ops).get k' = lastValueFor (pyLower k') ops ∧
    (build ops).contains k' = (lastValueFor (pyLower k') ops).isSome ∧
    ∀ kv ∈ ops, (aget kv.1 (build ops).store).isSome := by
  have hinv := inv_build_from ops CIDict.empty (fun _ => none) inv_empty
  have hget := getItem_eq_of_inv hinv k'
  rw [foldm_eq_lastValueFor] at hget
  have hmain : (build ops).getItem k' = lastValueFor (pyLower k') ops := hget
  refine ⟨hmain, hmain, ?_, ?_⟩
  · show ((build ops).getItem k').isSome = _
    rw [hmain]
  · intro kv hkv
    exact foldl_store_mem_isSome ops CIDict.empty kv hkv

/-! ### Body-preservation facts about the pieces of `read` -/

theorem parseHeaders_body (c : Conn) (d : Bytes) : (parseHeaders c d).body = c.body := by
  simp only [parseHeaders]
  repeat' split
  all_goals rfl

theorem processPart_body (c : Conn) (p : Bytes) : (processPart c p).1.body = c.body := by
  unfold processPart
  repeat' split
  all_goals rfl

theorem processParts_body (ps : List Bytes) :
    ∀ c : Conn, (processParts c ps).1.body = c.body := by
  induction ps with
  | nil => intro c; rfl
  | cons p rest ih =>
    intro c
    show (match processPart c p with
      | (c', none) => processParts c' rest
      | (c', some e) => (c', some e)).1.body = c.body
    cases hp : processPart c p with
    | mk c' e =>
      have hbody : c'.body = c.body := by
        have := processPart_body c p
        rw [hp] at this
        exact this
      cases e with
      | none => simpa [hbody] using ih c'
      | some e0 => simpa using hbody

theorem parseMultipart_body (c : Conn) : (parseMultipart c).1.body = c.body := by
  unfold parseMultipart
  repeat' split
  all_goals first
    | rfl
    | exact processParts_body _ _

theorem readPostMultipart_body (c : Conn) : (readPostMultipart c).1.body = c.body := by
  unfold readPostMultipart
  repeat' split
  all_goals first
    | rfl
    | (rename_i heq
       have := parseMultipart_body c
       rw [heq] at this
       simpa using this)

/-! ### The header-reading loop is chunking-independent -/

theorem recvHeaders_sound (chunks : List Bytes) :
    ∀ acc buf rest, recvHeaders acc chunks = some (buf, rest) →
      buf ++ rest.flatten = acc ++ chunks.flatten ∧
      containsSub CRLFCRLF buf = true := by
  induction chunks with
  | nil =>
    intro acc buf rest h
    unfold recvHeaders at h
    by_cases hc : containsSub CRLFCRLF acc = true
    · rw [if_pos hc] at h
      cases h
      exact ⟨rfl, hc⟩
    · rw [if_neg hc] at h
      cases h
  | cons c cs ih =>
    intro acc buf rest h
    unfold recvHeaders at h
    by_cases hc : containsSub CRLFCRLF acc = true
    · rw [if_pos hc] at h
      cases h
      exact ⟨rfl, hc⟩
    · rw [if_neg hc] at h
      obtain ⟨heq, hcont⟩ := ih (acc ++ c) buf rest h
      refine ⟨?_, hcont⟩
      rw [heq]
      simp [List.append_assoc]

theorem recvHeaders_complete (chunks : List Bytes) :
    ∀ acc, containsSub CRLFCRLF (acc ++ chunks.flatten) = true →
      (recvHeaders acc chunks).isSome := by
  induction chunks with
  | nil =>
    intro acc h
    simp only [List.flatten_nil, List.append_nil] at h
    unfold recvHeaders
    rw [if_pos h]
    rfl
  | cons c cs ih =>
    intro acc h
    unfold recvHeaders
    by_cases hc : containsSub CRLFCRLF acc = true
    · rw [if_pos hc]; rfl
    · rw [if_neg hc]
      apply ih (acc ++ c)
      rw [List.append_assoc]
      simpa using h

/-! ### C4: exactly `Content-Length` bytes are captured, chunking-independently -/

/-- **C4 (amended).** For every socket stream whose bytes are a header block
followed by `\r\n\r\n` and then exactly the `Content-Length`-many body
bytes, `Connection.read` stores exactly those body bytes — for *every*
partition of the stream into `sock_recv` chunks (header block and body
arriving in one burst or over many reads are all the same).  The amendment
with respect to the original claim: when *more* bytes than `Content-Length`
sit in the buffer after the header delimiter, the code raises
`ValueError` (`bytearray` with a negative count) instead of capturing N
bytes — see the counterexample theorem. -/
theorem c4_read_captures_exact_content_length
    (chunks : List Bytes) (H B clv : Bytes) (n : Nat)
    (hsplit : splitFirstSub CRLFCRLF chunks.flatten = some (H, B))
    (hclv : (parseHeaders Conn.init H).headers.getItem (str "Content-Length") = some clv)
    (hn : pyInt clv = some (n : Int))
    (hlen : B.length = n) :
    (read Conn.init chunks).1.body = some B := by
  have hcontains : containsSub CRLFCRLF chunks.flatten = true := by
    unfold containsSub
    rw [hsplit]
    rfl
  have hsome : (recvHeaders [] chunks).isSome := by
    apply recvHeaders_complete
    simpa using hcontains
  obtain ⟨⟨buf, rest⟩, hrecv⟩ := Option.isSome_iff_exists.mp hsome
  obtain ⟨heq, hcont⟩ := recvHeaders_sound chunks [] buf rest hrecv
  simp only [List.nil_append] at heq
  obtain ⟨⟨a1, b1⟩, hbufsplit⟩ :=
    Option.isSome_iff_exists.mp (show (splitFirstSub CRLFCRLF buf).isSome from hcont)
  have hext := splitFirstSub_append_of_some rest.flatten hbufsplit
  rw [heq, hsplit] at hext
  have hH : H = a1 := congrArg Prod.fst (Option.some.inj hext)
  have hB : B = b1 ++ rest.flatten := congrArg Prod.snd (Option.some.inj hext)
  subst hH
  have hble : b1.length ≤ n := by
    have hsum : B.length = b1.length + rest.flatten.length := by
      rw [hB]; simp
    omega
  have hrestlen : rest.flatten.length = n - b1.length := by
    have hsum : B.length = b1.length + rest.flatten.length := by
      rw [hB]; simp
    omega
  simp only [read, hrecv, hbufsplit, hclv, hn]
  by_cases hcase : b1.length = n
  · have hcast : (b1.length : Int) = (n : Int) := by exact_mod_cast hcase
    rw [if_pos hcast]
    have hrest0 : rest.flatten = [] := by
      have : rest.flatten.length = 0 := by omega
      exact List.length_eq_zero.mp this
    rw [readPostMultipart_body]
    rw [hB, hrest0, List.append_nil]
  · have hcast : ¬ ((b1.length : Int) = (n : Int)) := by exact_mod_cast hcase
    rw [if_neg hcast]
    have hnonneg : ¬ ((n : Int) - (b1.length : Int) < 0) := by
      omega
    rw [if_neg hnonneg]
    have hennough : ¬ ((rest.flatten.length : Int) < (n : Int) - (b1.length : Int)) := by
      omega
    rw [if_neg hennough]
    rw [readPostMultipart_body]
    have htoNat : ((n : Int) - (b1.length : Int)).toNat = n - b1.length := by
      omega
    rw [htoNat]
    have htake : rest.flatten.take (n - b1.length) = rest.flatten := by
      apply List.take_of_length_le
      omega
    rw [htake, hB]

/-- Witness for C4: a `Content-Length: 3` request whose header block and
body are split across two reads, the first read overshooting into the body. -/
theorem c4_read_captures_exact_content_length_witness :
    (read Conn.init
      [str "GET / HTTP/1.1\r\nHost: a\r\nContent-Length: 3\r\n\r\nab", str "c"]).1.body =
      some (str "abc") :=
  c4_read_captures_exact_content_length
    [str "GET / HTTP/1.1\r\nHost: a\r\nContent-Length: 3\r\n\r\nab", str "c"]
    (str "GET / HTTP/1.1\r\nHost: a\r\nContent-Length: 3") (str "abc") (str "3") 3
    (by decide) (by decide) (by decide) (by decide)

/-- Counterexample to C4 as stated: when *more* than `Content-Length` bytes
are already buffered past the header delimiter (here 5 bytes for
`Content-Length: 2`), `read` does not capture a 2-byte body — it raises
`ValueError` (`bytearray(-3)`) and leaves the body unset. -/
theorem c4_read_counterexample_overlong_buffer :
    (read Conn.init
      [str "GET / HTTP/1.1\r\nHost: a\r\nContent-Length: 2\r\n\r\nhello"]).2 =
        some ReadErr.negAlloc ∧
    (read Conn.init
      [str "GET / HTTP/1.1\r\nHost: a\r\nContent-Length: 2\r\n\r\nhello"]).1.body = none := by
  constructor
  · decide
  · decide

/-! ### C9: absent `Content-Length` means headers-only, not an error -/

/-- **C9.** When the headers stored by `parse_headers` contain no
`Content-Length` key, `read` returns right after header parsing: no body
read is attempted, the connection's body stays unset, and no error is
raised. -/
theorem c9_no_content_length_headers_only
    (chunks : List Bytes) (buf hdrData tempBuf : Bytes) (rest : List Bytes)
    (h1 : recvHeaders [] chunks = some (buf, rest))
    (h2 : splitFirstSub CRLFCRLF buf = some (hdrData, tempBuf))
    (h3 : (parseHeaders Conn.init hdrData).headers.getItem (str "Content-Length") = none) :
    read Conn.init chunks = (parseHeaders Conn.init hdrData, none) ∧
    (parseHeaders Conn.init hdrData).body = none := by
  constructor
  · simp only [read, h1, h2, h3]
  · rw [parseHeaders_body]
    rfl

/-- Witness for C9 at a concrete headers-only request. -/
theorem c9_no_content_length_headers_only_witness :
    read Conn.init [str "GET / HTTP/1.1\r\nHost: a\r\n\r\n"] =
      (parseHeaders Conn.init (str "GET / HTTP/1.1\r\nHost: a"), none) ∧
    (parseHeaders Conn.init (str "GET / HTTP/1.1\r\nHost: a")).body = none :=
  c9_no_content_length_headers_only
    [str "GET / HTTP/1.1\r\nHost: a\r\n\r\n"]
    (str "GET / HTTP/1.1\r\nHost: a\r\n\r\n")
    (str "GET / HTTP/1.1\r\nHost: a") [] []
    (by decide) (by decide) (by decide)

/-! ### C6: only the listed method and version tokens are accepted -/

theorem reqTail_some {l v : Bytes} (h : reqTail l = some v) :
    v ∈ httpVersions ∧
    (l = str " HTTP/" ++ v ∨ l = str " HTTP/" ++ v ++ ['\n']) := by
  unfold reqTail at h
  refine ⟨List.mem_of_find?_eq_some h, ?_⟩
  have hb : (l == str " HTTP/" ++ v || l == str " HTTP/" ++ v ++ ['\n']) = true := by
    simpa using List.find?_some h
  have hb' : (l == str " HTTP/" ++ v) = true ∨
      (l == str " HTTP/" ++ v ++ ['\n']) = true := by
    simpa using hb
  rcases hb' with hb' | hb'
  · exact Or.inl (eq_of_beq hb')
  · exact Or.inr (eq_of_beq hb')

theorem reqLineAfterPath_some {m path rest2 : Bytes} {r : ReqLine}
    (h : reqLineAfterPath m path rest2 = some r) :
    r.cmd = m ∧ r.path = path ∧ r.httpver ∈ httpVersions ∧
    (rest2 = (Option.getD r.args []) ++ str " HTTP/" ++ r.httpver ∨
     rest2 = (Option.getD r.args []) ++ str " HTTP/" ++ r.httpver ++ ['\n']) := by
  unfold reqLineAfterPath at h
  split at h
  · -- rest2 = '?' :: r3
    rename_i r3
    split at h
    · cases h
    · cases ht : reqTail (r3.dropWhile (fun c => c != ' ')) with
      | none => rw [ht] at h; cases h
      | some v =>
        rw [ht] at h
        simp only [Option.map_some'] at h
        cases h
        obtain ⟨hv, he⟩ := reqTail_some ht
        refine ⟨rfl, rfl, hv, ?_⟩
        rcases he with he | he
        · left
          show '?' :: r3 = ('?' :: r3.takeWhile (fun c => c != ' ')) ++ _ ++ _
          simp only [List.cons_append, List.append_assoc]
          congr 1
          rw [← he]
          exact (List.takeWhile_append_dropWhile _ _).symm
        · right
          show '?' :: r3 =
            ('?' :: r3.takeWhile (fun c => c != ' ')) ++ _ ++ _ ++ ['\n']
          simp only [List.cons_append, List.append_assoc]
          congr 1
          simp only [List.append_assoc] at he
          rw [← he]
          exact (List.takeWhile_append_dropWhile _ _).symm
  · -- no `?`: the whole remainder must be the tail
    cases ht : reqTail rest2 with
    | none => rw [ht] at h; cases h
    | some v =>
      rw [ht] at h
      simp only [Option.map_some'] at h
      cases h
      obtain ⟨hv, he⟩ := reqTail_some ht
      rcases he with he | he
      · exact ⟨rfl, rfl, hv, Or.inl (by simpa using he)⟩
      · exact ⟨rfl, rfl, hv, Or.inr (by simpa using he)⟩

/-- **C6 (amended).** A request line is accepted by `req_line_re` only when
it has the form `METHOD SP PATH ["?" QUERY] SP "HTTP/" VERSION`, *optionally
followed by a single trailing newline* (Python's `$` without `re.MULTILINE`
also matches just before a final `\n`), with the method token one of GET,
HEAD, POST, PUT, DELETE, PATCH, OPTIONS, the version token literally one of
1.0, 1.1, 2.0, 3.0, and the path starting with `/`; any other method or
version token fails to match.  The original claim's exact form, with no
trailing newline allowed, is refuted by the counterexample below. -/
theorem c6_reqLineMatch_only_known_tokens {l : Bytes} {r : ReqLine}
    (h : reqLineMatch l = some r) :
    r.cmd ∈ httpMethods ∧ r.httpver ∈ httpVersions ∧
    (l = r.cmd ++ [' '] ++ r.path ++ (Option.getD r.args []) ++ str " HTTP/" ++ r.httpver ∨
     l = r.cmd ++ [' '] ++ r.path ++ (Option.getD r.args []) ++ str " HTTP/" ++
       r.httpver ++ ['\n']) ∧
    r.path.head? = some '/' := by
  unfold reqLineMatch at h
  split at h
  · cases h
  · rename_i m hm
    split at h
    · rename_i rest' hd
      have hmem := List.mem_of_find?_eq_some hm
      have hpref : (m ++ [' ']).isPrefixOf l = true := by
        simpa using List.find?_some hm
      have hl : (m ++ [' ']) ++ l.drop (m.length + 1) = l := by
        have hp := List.isPrefixOf_iff_prefix.mp hpref
        simpa using List.prefix_iff_eq_append.mp hp
      rw [hd] at hl
      obtain ⟨hcmd, hpath, hver, hrest2⟩ := reqLineAfterPath_some h
      refine ⟨hcmd ▸ hmem, hver, ?_, ?_⟩
      · rcases hrest2 with hr2 | hr2
        · left
          rw [← hl, hcmd, hpath]
          have hsplit :=
            (List.takeWhile_append_dropWhile (fun c => c != '?' && c != ' ')
              ('/' :: rest')).symm
          rw [hr2] at hsplit
          conv_lhs => rw [hsplit]
          simp [List.append_assoc]
        · right
          rw [← hl, hcmd, hpath]
          have hsplit :=
            (List.takeWhile_append_dropWhile (fun c => c != '?' && c != ' ')
              ('/' :: rest')).symm
          rw [hr2] at hsplit
          conv_lhs => rw [hsplit]
          simp [List.append_assoc]
      · rw [hpath, List.takeWhile_cons_of_pos (by decide)]
        rfl
    · cases h

/-- Witness for C6 at the concrete request line `GET /a?x=1 HTTP/1.1`. -/
theorem c6_reqLineMatch_only_known_tokens_witness :
    (str "GET") ∈ httpMethods ∧ (str "1.1") ∈ httpVersions ∧
    (str "GET /a?x=1 HTTP/1.1" =
       str "GET" ++ [' '] ++ str "/a" ++ (Option.getD (some (str "?x=1")) []) ++
         str " HTTP/" ++ str "1.1" ∨
     str "GET /a?x=1 HTTP/1.1" =
       str "GET" ++ [' '] ++ str "/a" ++ (Option.getD (some (str "?x=1")) []) ++
         str " HTTP/" ++ str "1.1" ++ ['\n']) ∧
    (str "/a").head? = some '/' :=
  c6_reqLineMatch_only_known_tokens
    (l := str "GET /a?x=1 HTTP/1.1")
    (r := ⟨str "GET", str "/a", some (str "?x=1"), str "1.1"⟩)
    (by decide)

/-- Counterexample to C6 as stated: `req_line_re` accepts the line
`GET / HTTP/1.1\n` — Python's `$` matches just before the trailing newline —
although the line is not of the claimed exact form
`METHOD SP PATH ["?" QUERY] SP "HTTP/" VERSION`.  The line is reachable: a
stream whose header block is `GET / HTTP/1.1\n\r\nHost: a` (e.g. the single
chunk `GET / HTTP/1.1\n\r\nHost: a\r\n\r\n`) yields exactly this request-line
slice, and `parse_headers` accepts it, stores the method and parses the
`Host` header, so the request goes on to be dispatched. -/
theorem c6_counterexample_trailing_newline :
    reqLineMatch (str "GET / HTTP/1.1\n") =
      some ⟨str "GET", str "/", none, str "1.1"⟩ ∧
    str "GET / HTTP/1.1\n" ≠
      str "GET" ++ [' '] ++ str "/" ++ (Option.getD (none : Option Bytes) []) ++
        str " HTTP/" ++ str "1.1" ∧
    (parseHeaders Conn.init (str "GET / HTTP/1.1\n\r\nHost: a")).cmd = str "GET" ∧
    (parseHeaders Conn.init (str "GET / HTTP/1.1\n\r\nHost: a")).headers.getItem
      (str "Host") = some (str "a") := by
  refine ⟨by decide, by decide, by decide, by decide⟩

/-! ### C1: when dispatch compresses -/

/-- **C1 (amended).** `Server.dispatch` gzip-compresses the body and adds
`Content-Encoding: gzip` if and only if the configured compression level is
positive *and* a domain and route matched the request — the client's
`Accept-Encoding` header, the body size, and the response `Content-Type`
play no role.  (The original claim's conditions — `Accept-Encoding`
advertising gzip, a 1500-byte threshold, an incompressible `Content-Type` —
do not appear in the code; see the counterexample.) -/
theorem c1_dispatch_compresses_iff_gzip_level_and_route
    (srv : Server) (conn : Conn) (host : Bytes) (res : DispatchResult)
    (hhost : conn.headers.getItem (str "Host") = some host)
    (hclean : (str "Content-Encoding: gzip") ∉ conn.respHeaders)
    (hdisp : srv.dispatch conn = some res) :
    (res.body.isCompressed = true ↔
      (0 < srv.gzip ∧ ∃ d, srv.findDomain host = some d ∧
        (d.findRoute conn.path conn.cmd).isSome)) ∧
    ((str "Content-Encoding: gzip") ∈ res.conn.respHeaders ↔
      res.body.isCompressed = true) := by
  unfold Server.dispatch at hdisp
  simp only [hhost] at hdisp
  cases hfd : srv.findDomain host with
  | none =>
    simp only [hfd] at hdisp
    have hres : (⟨404, .raw (str "Not Found."), conn⟩ : DispatchResult) = res :=
      Option.some.inj hdisp
    cases hres
    refine ⟨?_, ?_⟩
    · simp [RespBody.isCompressed, hfd]
    · simpa [RespBody.isCompressed] using hclean
  | some d =>
    simp only [hfd] at hdisp
    cases hfr : d.findRoute conn.path conn.cmd with
    | none =>
      simp only [hfr] at hdisp
      have hres : (⟨404, .raw (str "Not Found."), conn⟩ : DispatchResult) = res :=
        Option.some.inj hdisp
      cases hres
      refine ⟨?_, ?_⟩
      · simp [RespBody.isCompressed, hfd, hfr]
      · simpa [RespBody.isCompressed] using hclean
    | some route =>
      simp only [hfr] at hdisp
      have hinner : ∃ code b,
          (match route.handler conn with
           | .none => some ((200 : Int), ([] : Bytes))
           | .body b => some ((200 : Int), b)
           | .withCode c b => some (c, b)) = some (code, b) := by
        cases route.handler conn with
        | none => exact ⟨200, [], rfl⟩
        | body b => exact ⟨200, b, rfl⟩
        | withCode c b => exact ⟨c, b, rfl⟩
      obtain ⟨code, b, hcb⟩ := hinner
      simp only [hcb] at hdisp
      by_cases hg : 0 < srv.gzip
      · rw [if_pos hg] at hdisp
        have hres : (⟨code, gzipCompress srv.gzip b,
            conn.addRespHeader (str "Content-Encoding: gzip")⟩ : DispatchResult) = res :=
          Option.some.inj hdisp
        cases hres
        refine ⟨?_, ?_⟩
        · simp [gzipCompress, RespBody.isCompressed, hg, hfd, hfr]
        · simp [gzipCompress, RespBody.isCompressed, Conn.addRespHeader]
      · rw [if_neg hg] at hdisp
        have hres : (⟨code, .raw b, conn⟩ : DispatchResult) = res :=
          Option.some.inj hdisp
        cases hres
        refine ⟨?_, ?_⟩
        · simp [RespBody.isCompressed, hg]
        · simpa [RespBody.isCompressed] using hclean

/-- Witness for C1 (amended): the compressing server at the concrete
connection. -/
theorem c1_dispatch_compresses_iff_witness :
    ((RespBody.gzipped 6 (str "hi")).isCompressed = true ↔
      (0 < srvGzip.gzip ∧ ∃ d, srvGzip.findDomain (str "a") = some d ∧
        (d.findRoute connPlainGet.path connPlainGet.cmd).isSome)) ∧
    ((str "Content-Encoding: gzip") ∈
        (connPlainGet.addRespHeader (str "Content-Encoding: gzip")).respHeaders ↔
      (RespBody.gzipped 6 (str "hi")).isCompressed = true) :=
  c1_dispatch_compresses_iff_gzip_level_and_route srvGzip connPlainGet (str "a")
    ⟨200, RespBody.gzipped 6 (str "hi"),
      connPlainGet.addRespHeader (str "Content-Encoding: gzip")⟩
    rfl (by decide) rfl

/-- Counterexample to C1 as stated: with compression level 6, a client that
sent *no* `Accept-Encoding` header and a 2-byte (≤ 1500) body still gets a
gzip-compressed response carrying `Content-Encoding: gzip`, where the claim
requires it to be sent uncompressed. -/
theorem c1_dispatch_counterexample_no_accept_encoding :
    connPlainGet.headers.getItem (str "Accept-Encoding") = none ∧
    srvGzip.dispatch connPlainGet =
      some ⟨200, RespBody.gzipped 6 (str "hi"),
        connPlainGet.addRespHeader (str "Content-Encoding: gzip")⟩ ∧
    (RespBody.gzipped 6 (str "hi")).isCompressed = true :=
  ⟨rfl, rfl, rfl⟩

/-! ### C2: a handler returning `None` yields 200, not 404 -/

/-- **C2 (amended).** When a registered domain and route match and the
handler returns `None`, `dispatch` coerces the result to `b''` (via
`resp or b''`) and responds with status **200** and an empty body — not
404.  Status 404 arises only when no domain or no route matches. -/
theorem c2_handler_none_yields_200_empty
    (srv : Server) (conn : Conn) (host : Bytes) (d : Domain) (route : Route)
    (hhost : conn.headers.getItem (str "Host") = some host)
    (hd : srv.findDomain host = some d)
    (hr : d.findRoute conn.path conn.cmd = some route)
    (hnone : route.handler conn = PyResp.none)
    (hgzip : srv.gzip = 0) :
    srv.dispatch conn = some ⟨200, RespBody.raw [], conn⟩ ∧
    (∀ (srv2 : Server) (conn2 : Conn) (host2 : Bytes),
      conn2.headers.getItem (str "Host") = some host2 →
      srv2.findDomain host2 = none →
      srv2.dispatch conn2 = some ⟨404, RespBody.raw (str "Not Found."), conn2⟩) := by
  constructor
  · unfold Server.dispatch
    simp only [hhost, hd, hr, hnone, hgzip]
    rw [if_neg (by omega)]
  · intro srv2 conn2 host2 hhost2 hnd2
    unfold Server.dispatch
    simp only [hhost2, hnd2]

/-- Witness for C2 (amended) at the concrete `None`-returning server. -/
theorem c2_handler_none_yields_200_empty_witness :
    srvNoneHandler.dispatch connPlainGet = some ⟨200, RespBody.raw [], connPlainGet⟩ :=
  (c2_handler_none_yields_200_empty srvNoneHandler connPlainGet (str "a")
    (srvNoneHandler.domains.headD ⟨fun _ => false, []⟩)
    ((srvNoneHandler.domains.headD ⟨fun _ => false, []⟩).routes.headD
      ⟨[], fun _ => false, fun _ => PyResp.none⟩)
    rfl rfl rfl rfl rfl).1

/-- Counterexample to C2 as stated: a matched route whose handler returns
`None` produces status **200** (an empty 200 response), whereas the claim
requires status 404 like an unmatched route. -/
theorem c2_handler_none_counterexample :
    (srvNoneHandler.dispatch connPlainGet).map DispatchResult.code = some 200 ∧
    ((200 : Int) ≠ 404) :=
  ⟨rfl, by decide⟩

/-! ### C3: a multipart part without `Content-Disposition` is a parse failure -/

theorem processPart_noDisposition {p : Bytes} (c : Conn) (h : partLacksDisposition p) :
    processPart c p = (c, some MultipartErr.noDisposition) := by
  obtain ⟨hdrsB, bodyB, hdrs, h1, h2, h3⟩ := h
  unfold processPart
  simp only [h1, h2, h3]

theorem processParts_err_of_lacks (ps : List Bytes) :
    ∀ c : Conn, (∃ p ∈ ps, partLacksDisposition p) →
      (processParts c ps).2.isSome := by
  induction ps with
  | nil =>
    intro c h
    obtain ⟨p, hp, _⟩ := h
    cases hp
  | cons p0 rest ih =>
    intro c h
    obtain ⟨p, hp, hlacks⟩ := h
    simp only [processParts]
    rcases List.mem_cons.mp hp with heq | hmem
    · subst heq
      rw [processPart_noDisposition c hlacks]
      rfl
    · cases hpp : processPart c p0 with
      | mk c' e =>
        cases e with
        | none => simpa using ih c' ⟨p, hmem, hlacks⟩
        | some e0 => rfl

/-- **C3.** A POST whose `multipart/form-data` body contains a part lacking
`Content-Disposition` is a parse failure: `parse_multipart` raises, and a
raised `read` kills the handler task before the `Host` check — no route
handler is ever invoked and no response is sent (the socket dies with the
task). -/
theorem c3_multipart_missing_disposition_rejected
    (srv : Server) (chunks : List Bytes) (conn : Conn)
    (ct boundary body p : Bytes)
    (hct : conn.headers.getItem (str "Content-Type") = some ct)
    (hbd : (splitFirst '=' ct).2 = some boundary)
    (hbody : conn.body = some body)
    (hp : p ∈ ((splitSub (str "--" ++ boundary) body).drop 1).filter
      (fun q => !(q == str "--\r\n")))
    (hlacks : partLacksDisposition p) :
    (parseMultipart conn).2.isSome ∧
    (∀ e, (read Conn.init chunks).2 = some e →
      srv.handle chunks = HandleOutcome.readError e) := by
  constructor
  · unfold parseMultipart
    simp only [hct, hbd, hbody]
    exact processParts_err_of_lacks _ conn ⟨p, hp, hlacks⟩
  · intro e he
    unfold Server.handle
    cases hr : read Conn.init chunks with
    | mk c oe =>
      rw [hr] at he
      have hoe : oe = some e := he
      rw [hoe]

/-- Witness for C3: the concrete bad-part POST fails `parse_multipart`, and
`handle` on the same request dies with that error, never dispatching. -/
theorem c3_multipart_missing_disposition_rejected_witness :
    (parseMultipart connBadPart).2.isSome ∧
    Server.handle ⟨0, []⟩ [chunkBadPart] =
      HandleOutcome.readError (ReadErr.multipart MultipartErr.noDisposition) :=
  have h := c3_multipart_missing_disposition_rejected ⟨0, []⟩ [chunkBadPart] connBadPart
    (str "multipart/form-data; boundary=X") (str "X")
    (str "--X\r\nContent-Type: text/plain\r\n\r\nv\r\n--X--\r\n")
    (str "\r\nContent-Type: text/plain\r\n\r\nv\r\n")
    (by decide) (by decide) rfl (by decide)
    ⟨str "\r\nContent-Type: text/plain", str "v\r\n",
      [(str "Content-Type", str "text/plain")], by decide, by decide, by decide⟩
  ⟨h.1, h.2 (ReadErr.multipart MultipartErr.noDisposition) (by decide)⟩

/-! ### C5: malformed request lines abort without dispatch -/

theorem parseHeaders_badReqLine (c : Conn) (data : Bytes)
    (h : reqLineMatch (reqLineOf data) = none) : parseHeaders c data = c := by
  unfold parseHeaders
  rw [h]

/-- **C5 (amended).** Parsing never raises: a malformed request line leaves
the fresh connection untouched, `read` finishes without error, and `handle`
shuts the connection down without dispatching and without a response
(`noHost`).  More generally any abort that leaves no `Host` header stored —
e.g. a header line with no `:` occurring before the `Host` line — ends the
same way.  (When a `Host` header *was* stored before the offending header
line, the request is dispatched anyway and a response is sent — the
counterexample refutes the original claim's unconditional "no response,
no dispatch".) -/
theorem c5_malformed_request_aborts_without_dispatch
    (srv : Server) (chunks : List Bytes) (buf hdrData tempBuf : Bytes) (rest : List Bytes)
    (hrecv : recvHeaders [] chunks = some (buf, rest))
    (hsplit : splitFirstSub CRLFCRLF buf = some (hdrData, tempBuf)) :
    (reqLineMatch (reqLineOf hdrData) = none →
      read Conn.init chunks = (Conn.init, none) ∧
      srv.handle chunks = HandleOutcome.noHost) ∧
    (∀ conn, read Conn.init chunks = (conn, none) →
      conn.headers.contains (str "Host") = false →
      srv.handle chunks = HandleOutcome.noHost) := by
  constructor
  · intro hbad
    have hph : parseHeaders Conn.init hdrData = Conn.init :=
      parseHeaders_badReqLine _ _ hbad
    have hread : read Conn.init chunks = (Conn.init, none) := by
      simp only [read, hrecv, hsplit, hph]
      rfl
    refine ⟨hread, ?_⟩
    unfold Server.handle
    rw [hread]
    rfl
  · intro conn hread hnohost
    unfold Server.handle
    rw [hread]
    simp [hnohost]

/-- Witness for C5 at the concrete malformed request line `BAD /`. -/
theorem c5_malformed_request_aborts_without_dispatch_witness :
    read Conn.init [str "BAD / HTTP/1.1\r\nHost: a\r\n\r\n"] = (Conn.init, none) ∧
    Server.handle ⟨0, []⟩ [str "BAD / HTTP/1.1\r\nHost: a\r\n\r\n"] =
      HandleOutcome.noHost :=
  (c5_malformed_request_aborts_without_dispatch ⟨0, []⟩
    [str "BAD / HTTP/1.1\r\nHost: a\r\n\r\n"]
    (str "BAD / HTTP/1.1\r\nHost: a\r\n\r\n") (str "BAD / HTTP/1.1\r\nHost: a") [] []
    (by decide) (by decide)).1 (by decide)

/-- Counterexample to C5 as stated: a request whose *third* header line has
no `:` — but whose `Host` line was already parsed — is still dispatched and
receives a (404) response, not an aborted connection. -/
theorem c5_counterexample_bad_header_after_host :
    (Server.handle ⟨0, []⟩
      [str "GET / HTTP/1.1\r\nHost: a\r\nbadline\r\n\r\n"]).isResponded = true := by
  decide

/-! ### C8: the response writer round-trip -/

theorem sendStatusLine_not_contentLength {status : Int} {line : Bytes}
    (h : sendStatusLine status = some line) :
    (str "Content-Length:").isPrefixOf line = false := by
  unfold sendStatusLine statusRepr at h
  cases hl : httpStatusTable.lookup status with
  | none => rw [hl] at h; cases h
  | some r =>
    rw [hl] at h
    simp only [Option.map_some'] at h
    cases h
    rfl

/-- **C8.** `Connection.send` with status 200, body `b"ok"`, no accumulated
response headers and no compression writes exactly
`HTTP/1.1 200 OK\r\nContent-Length: 2\r\n\r\nok`; re-parsing those bytes as
a client recovers status 200 and body `ok`; and in general the writer emits
a `Content-Length` header exactly when the body is nonempty. -/
theorem c8_send_roundtrip_and_content_length :
    Conn.send Conn.init 200 (str "ok") =
      some ({ Conn.init with
                respHeaders := [str "HTTP/1.1 200 OK", str "Content-Length: 2"] },
            str "HTTP/1.1 200 OK\r\nContent-Length: 2\r\n\r\nok") ∧
    clientParse (str "HTTP/1.1 200 OK\r\nContent-Length: 2\r\n\r\nok") =
      some (200, str "ok") ∧
    (∀ (conn : Conn) (status : Int) (body line : Bytes) (r : Conn × Bytes),
      sendStatusLine status = some line →
      conn.send status body = some r →
      (∀ h ∈ conn.respHeaders, (str "Content-Length:").isPrefixOf h = false) →
      ((∃ h ∈ r.1.respHeaders, (str "Content-Length:").isPrefixOf h = true) ↔
        body ≠ [])) := by
  refine ⟨by decide, by decide, ?_⟩
  intro conn status body line r hline hsend hclean
  unfold Conn.send at hsend
  rw [hline] at hsend
  by_cases hb : body = []
  · subst hb
    simp only [if_pos rfl] at hsend
    have hr : ({ conn with respHeaders := conn.respHeaders.insertIdx 0 line },
        List.intercalate CRLF (conn.respHeaders.insertIdx 0 line) ++ CRLFCRLF ++ []) = r :=
      Option.some.inj hsend
    cases hr
    simp only [List.insertIdx_zero]
    constructor
    · rintro ⟨h, hmem, hpre⟩
      rcases List.mem_cons.mp hmem with hl | hmem2
      · subst hl
        rw [sendStatusLine_not_contentLength hline] at hpre
        cases hpre
      · rw [hclean h hmem2] at hpre
        cases hpre
    · intro hne
      exact absurd rfl hne
  · simp only [if_neg hb] at hsend
    have hr : ({ conn with
          respHeaders :=
            (conn.respHeaders.insertIdx 0 line).insertIdx 1
              (str "Content-Length: " ++ (toString body.length).data) },
        List.intercalate CRLF
            ((conn.respHeaders.insertIdx 0 line).insertIdx 1
              (str "Content-Length: " ++ (toString body.length).data)) ++
          CRLFCRLF ++ body) = r :=
      Option.some.inj hsend
    cases hr
    constructor
    · intro _
      exact hb
    · intro _
      refine ⟨str "Content-Length: " ++ (toString body.length).data, ?_, ?_⟩
      · simp [List.insertIdx_zero]
      · have hpre : (str "Content-Length:") <+: (str "Content-Length: ") := by decide
        exact List.isPrefixOf_iff_prefix.mpr (hpre.trans (List.prefix_append _ _))

/-! #### Character-level facts about the ASCII case maps -/

theorem toLowerChar_toUpperChar (c : Char) :
    toLowerChar (toUpperChar c) = toLowerChar c := by
  unfold toUpperChar
  cases hf : caseTable.find? (fun p => p.2 == c) with
  | none => rfl
  | some p =>
    have hmem := List.mem_of_find?_eq_some hf
    have hc : p.2 = c := by
      have hb := List.find?_some hf
      exact eq_of_beq (by simpa using hb)
    subst hc
    fin_cases hmem <;> decide

theorem toLowerChar_toLowerChar (c : Char) :
    toLowerChar (toLowerChar c) = toLowerChar c := by
  unfold toLowerChar
  cases hf : caseTable.find? (fun p => p.1 == c) with
  | none => rw [hf]
  | some p =>
    have hmem := List.mem_of_find?_eq_some hf
    have hc : p.1 = c := by
      have hb := List.find?_some hf
      exact eq_of_beq (by simpa using hb)
    subst hc
    fin_cases hmem <;> decide

theorem toLowerChar_titleStep (b : Bool) (c : Char) :
    toLowerChar (if isAlphaChar c then
      (if b then toLowerChar c else toUpperChar c) else c) = toLowerChar c := by
  by_cases ha : isAlphaChar c
  · rw [if_pos ha]
    cases b
    · simp only [Bool.false_eq_true, if_false]
      exact toLowerChar_toUpperChar c
    · simp only [if_true]
      exact toLowerChar_toLowerChar c
  · rw [if_neg ha]

theorem pyLower_pyTitleAux (b : Bool) (k : Bytes) :
    pyLower (pyTitleAux b k) = pyLower k := by
  induction k generalizing b with
  | nil => rfl
  | cons c rest ih =>
    show toLowerChar _ :: pyLower (pyTitleAux (isAlphaChar c) rest) =
      toLowerChar c :: pyLower rest
    rw [toLowerChar_titleStep b c, ih]

/-- Python `k.title().lower() == k.lower()`: storing headers under titled
keys keeps the lowercase class. -/
theorem pyLower_pyTitle (k : Bytes) : pyLower (pyTitle k) = pyLower k :=
  pyLower_pyTitleAux false k

/-! #### Splitting facts used by the round trip -/

theorem splitFirstSub_crlf_append (x y : Bytes) (hx : ∀ c ∈ x, c ≠ '\r') :
    splitFirstSub CRLF (x ++ CRLF ++ y) = some (x, y) := by
  induction x with
  | nil =>
    show splitFirstSub CRLF ('\r' :: ('\n' :: y)) = some ([], y)
    simp [splitFirstSub, CRLF, str, List.isPrefixOf]
  | cons c x' ih =>
    have hc := hx c (List.mem_cons_self _ _)
    have hx' : ∀ c' ∈ x', c' ≠ '\r' := fun c' h' => hx c' (List.mem_cons_of_mem _ h')
    have hnp : CRLF.isPrefixOf (c :: (x' ++ CRLF ++ y)) = false := by
      simp [CRLF, str, List.isPrefixOf, beq_iff_eq, Ne.symm hc]
    show splitFirstSub CRLF (c :: (x' ++ CRLF ++ y)) = some (c :: x', y)
    rw [splitFirstSub, hnp]
    simp only [Bool.false_eq_true, if_false]
    rw [ih hx']
    rfl

theorem takeWhile_append_stop (p : Char → Bool) (x : Bytes) (b : Char) (y : Bytes)
    (hx : ∀ c ∈ x, p c = true) (hb : p b = false) :
    (x ++ b :: y).takeWhile p = x ∧ (x ++ b :: y).dropWhile p = b :: y := by
  induction x with
  | nil => simp [List.takeWhile_cons, List.dropWhile_cons, hb]
  | cons c x' ih =>
    have hc := hx c (List.mem_cons_self _ _)
    have hx' : ∀ c' ∈ x', p c' = true := fun c' h' => hx c' (List.mem_cons_of_mem _ h')
    obtain ⟨iht, ihd⟩ := ih hx'
    constructor
    · show (c :: (x' ++ b :: y)).takeWhile p = c :: x'
      rw [List.takeWhile_cons, if_pos hc, iht]
    · show (c :: (x' ++ b :: y)).dropWhile p = b :: y
      rw [List.dropWhile_cons, if_pos hc, ihd]

theorem splitFirst_no_sep (sep : Char) (x : Bytes) (hx : ∀ c ∈ x, c ≠ sep) :
    splitFirst sep x = (x, none) := by
  induction x with
  | nil => rfl
  | cons c x' ih =>
    have hc := hx c (List.mem_cons_self _ _)
    have hx' : ∀ c' ∈ x', c' ≠ sep := fun c' h' => hx c' (List.mem_cons_of_mem _ h')
    simp [splitFirst, hc, ih hx']

theorem splitFirst_append (sep : Char) (k rest : Bytes) (hk : ∀ c ∈ k, c ≠ sep) :
    splitFirst sep (k ++ sep :: rest) = (k, some rest) := by
  induction k with
  | nil => simp [splitFirst]
  | cons c k' ih =>
    have hc := hk c (List.mem_cons_self _ _)
    have hk' : ∀ c' ∈ k', c' ≠ sep := fun c' h' => hk c' (List.mem_cons_of_mem _ h')
    simp [splitFirst, hc, ih hk']

theorem splitCRLF_cons_ne {c : Char} (l : Bytes) (h : c ≠ '\r') :
    splitCRLF (c :: l) =
      match splitCRLF l with
      | [] => [[c]]
      | p :: ps => (c :: p) :: ps := by
  rw [splitCRLF.eq_def]
  split
  · rename_i heq; cases heq
  · rename_i heq; cases heq; exact absurd rfl h
  · rename_i heq; cases heq; rfl

theorem splitCRLF_ne_nil (l : Bytes) : splitCRLF l ≠ [] := by
  rw [splitCRLF.eq_def]
  split
  · simp
  · simp
  · split <;> simp

theorem splitCRLF_no_cr (x : Bytes) (hx : ∀ c ∈ x, c ≠ '\r') :
    splitCRLF x = [x] := by
  induction x with
  | nil => rfl
  | cons c x' ih =>
    have hc := hx c (List.mem_cons_self _ _)
    have hx' : ∀ c' ∈ x', c' ≠ '\r' := fun c' h' => hx c' (List.mem_cons_of_mem _ h')
    rw [splitCRLF_cons_ne _ hc, ih hx']

theorem splitCRLF_append_crlf (x y : Bytes) (hx : ∀ c ∈ x, c ≠ '\r') :
    splitCRLF (x ++ CRLF ++ y) = x :: splitCRLF y := by
  induction x with
  | nil =>
    show splitCRLF (([] : Bytes) ++ CRLF ++ y) = [] :: splitCRLF y
    rfl
  | cons c x' ih =>
    have hc := hx c (List.mem_cons_self _ _)
    have hx' : ∀ c' ∈ x', c' ≠ '\r' := fun c' h' => hx c' (List.mem_cons_of_mem _ h')
    show splitCRLF (c :: (x' ++ CRLF ++ y)) = (c :: x') :: splitCRLF y
    rw [splitCRLF_cons_ne _ hc, ih hx']

theorem splitCRLF_serializeHeaders (hs : List (Bytes × Bytes)) (hne : hs ≠ [])
    (h : ∀ kv ∈ hs, ∀ c ∈ headerLine kv, c ≠ '\r') :
    splitCRLF (serializeHeaders hs) = hs.map headerLine := by
  induction hs with
  | nil => exact absurd rfl hne
  | cons kv rest ih =>
    cases rest with
    | nil =>
      show splitCRLF (headerLine kv) = [headerLine kv]
      exact splitCRLF_no_cr _ (h kv (List.mem_cons_self _ _))
    | cons kv2 rest2 =>
      have h1 := h kv (List.mem_cons_self _ _)
      have h' : ∀ kv' ∈ kv2 :: rest2, ∀ c ∈ headerLine kv', c ≠ '\r' :=
        fun kv' hm => h kv' (List.mem_cons_of_mem _ hm)
      show splitCRLF (headerLine kv ++ CRLF ++ serializeHeaders (kv2 :: rest2)) =
        headerLine kv :: (kv2 :: rest2).map headerLine
      rw [splitCRLF_append_crlf _ _ h1, ih (by simp) h']

theorem splitChar_cons (sep c : Char) (l : Bytes) :
    splitChar sep (c :: l) =
      if c = sep then [] :: splitChar sep l
      else
        match splitChar sep l with
        | [] => [[c]]
        | p :: ps => (c :: p) :: ps := rfl

theorem splitChar_no_sep (sep : Char) (x : Bytes) (hx : ∀ c ∈ x, c ≠ sep) :
    splitChar sep x = [x] := by
  induction x with
  | nil => rfl
  | cons c x' ih =>
    have hc := hx c (List.mem_cons_self _ _)
    have hx' : ∀ c' ∈ x', c' ≠ sep := fun c' h' => hx c' (List.mem_cons_of_mem _ h')
    rw [splitChar_cons, if_neg hc, ih hx']

theorem splitChar_append (sep : Char) (x y : Bytes) (hx : ∀ c ∈ x, c ≠ sep) :
    splitChar sep (x ++ sep :: y) = x :: splitChar sep y := by
  induction x with
  | nil =>
    show splitChar sep (sep :: y) = [] :: splitChar sep y
    rw [splitChar_cons, if_pos rfl]
  | cons c x' ih =>
    have hc := hx c (List.mem_cons_self _ _)
    have hx' : ∀ c' ∈ x', c' ≠ sep := fun c' h' => hx c' (List.mem_cons_of_mem _ h')
    show splitChar sep (c :: (x' ++ sep :: y)) = (c :: x') :: splitChar sep y
    rw [splitChar_cons, if_neg hc, ih hx']

theorem splitChar_serializeQuery (qs : List (Bytes × Bytes)) (hne : qs ≠ [])
    (h : ∀ kv ∈ qs, ∀ c ∈ kv.1 ++ ['='] ++ kv.2, c ≠ '&') :
    splitChar '&' (serializeQuery qs) = qs.map (fun kv => kv.1 ++ ['='] ++ kv.2) := by
  induction qs with
  | nil => exact absurd rfl hne
  | cons kv rest ih =>
    cases rest with
    | nil =>
      show splitChar '&' (kv.1 ++ ['='] ++ kv.2) = [kv.1 ++ ['='] ++ kv.2]
      exact splitChar_no_sep _ _ (h kv (List.mem_cons_self _ _))
    | cons kv2 rest2 =>
      have h1 := h kv (List.mem_cons_self _ _)
      have h' : ∀ kv' ∈ kv2 :: rest2, ∀ c ∈ kv'.1 ++ ['='] ++ kv'.2, c ≠ '&' :=
        fun kv' hm => h kv' (List.mem_cons_of_mem _ hm)
      have hser : serializeQuery (kv :: kv2 :: rest2) =
          (kv.1 ++ ['='] ++ kv.2) ++ '&' :: serializeQuery (kv2 :: rest2) := by
        show kv.1 ++ ['='] ++ kv.2 ++ ['&'] ++ serializeQuery (kv2 :: rest2) = _
        simp [List.append_assoc]
      rw [hser, splitChar_append _ _ _ h1, ih (by simp) h']
      rfl

/-! #### The serialised request line matches -/

theorem drop_method_space (method rest0 : Bytes) :
    (method ++ ' ' :: rest0).drop (method.length + 1) = rest0 := by
  have h : method ++ ' ' :: rest0 = (method ++ [' ']) ++ rest0 := by simp
  rw [h]
  exact List.drop_left' (by simp)

theorem matchMethod_find (method : Bytes) (hm : method ∈ httpMethods) (rest : Bytes) :
    httpMethods.find? (fun m => (m ++ [' ']).isPrefixOf (method ++ ' ' :: rest)) =
      some method := by
  fin_cases hm <;> simp [httpMethods, str, List.isPrefixOf, List.find?]

theorem reqTail_serialize (version : Bytes) (hv : version ∈ httpVersions) :
    reqTail (' ' :: (str "HTTP/" ++ version)) = some version := by
  fin_cases hv <;> rfl

theorem reqLineAfterPath_space (m p l : Bytes) :
    reqLineAfterPath m p (' ' :: l) =
      (reqTail (' ' :: l)).map (fun v => ⟨m, p, none, v⟩) := rfl

theorem reqLineAfterPath_question (m p r3 : Bytes) :
    reqLineAfterPath m p ('?' :: r3) =
      if (r3.takeWhile (fun c => c != ' ')).isEmpty then none
      else
        (reqTail (r3.dropWhile (fun c => c != ' '))).map
          (fun v => ⟨m, p, some ('?' :: r3.takeWhile (fun c => c != ' ')), v⟩) := rfl

theorem serializeQuery_ne_nil (qs : List (Bytes × Bytes)) (h : qs ≠ []) :
    serializeQuery qs ≠ [] := by
  cases qs with
  | nil => exact absurd rfl h
  | cons kv rest =>
    cases rest with
    | nil => simp [serializeQuery]
    | cons kv2 rest2 => simp [serializeQuery]

/-- The serialised request line with no query string matches, yielding the
method, the path, no args group and the version. -/
theorem reqLineMatch_serialize_none (method path version : Bytes)
    (hm : method ∈ httpMethods) (hv : version ∈ httpVersions)
    (hhead : path.head? = some '/')
    (hpathc : ∀ c ∈ path, (c != '?' && c != ' ') = true) :
    reqLineMatch (method ++ ' ' :: (path ++ ' ' :: (str "HTTP/" ++ version))) =
      some ⟨method, path, none, version⟩ := by
  unfold reqLineMatch
  simp only [matchMethod_find method hm]
  rw [drop_method_space]
  cases hpa : path with
  | nil => rw [hpa] at hhead; cases hhead
  | cons c0 ptail =>
    have hc0 : c0 = '/' := by
      rw [hpa] at hhead
      cases hhead
      rfl
    subst hc0
    subst hpa
    show reqLineAfterPath method
      ((('/' :: ptail) ++ ' ' :: (str "HTTP/" ++ version)).takeWhile
        (fun c => c != '?' && c != ' '))
      ((('/' :: ptail) ++ ' ' :: (str "HTTP/" ++ version)).dropWhile
        (fun c => c != '?' && c != ' ')) = some ⟨method, '/' :: ptail, none, version⟩
    obtain ⟨ht, hd⟩ := takeWhile_append_stop (fun c => c != '?' && c != ' ')
      ('/' :: ptail) ' ' (str "HTTP/" ++ version) hpathc (by decide)
    rw [ht, hd, reqLineAfterPath_space, reqTail_serialize version hv]
    rfl

/-- The serialised request line with a query string matches, yielding the
method, the path, the full `?…` group and the version. -/
theorem reqLineMatch_serialize_some (method path version qstr : Bytes)
    (hm : method ∈ httpMethods) (hv : version ∈ httpVersions)
    (hhead : path.head? = some '/')
    (hpathc : ∀ c ∈ path, (c != '?' && c != ' ') = true)
    (hqne : qstr ≠ [])
    (hqc : ∀ c ∈ qstr, (c != ' ') = true) :
    reqLineMatch
      (method ++ ' ' :: (path ++ '?' :: (qstr ++ ' ' :: (str "HTTP/" ++ version)))) =
      some ⟨method, path, some ('?' :: qstr), version⟩ := by
  unfold reqLineMatch
  simp only [matchMethod_find method hm]
  rw [drop_method_space]
  cases hpa : path with
  | nil => rw [hpa] at hhead; cases hhead
  | cons c0 ptail =>
    have hc0 : c0 = '/' := by
      rw [hpa] at hhead
      cases hhead
      rfl
    subst hc0
    subst hpa
    show reqLineAfterPath method
      ((('/' :: ptail) ++ '?' :: (qstr ++ ' ' :: (str "HTTP/" ++ version))).takeWhile
        (fun c => c != '?' && c != ' '))
      ((('/' :: ptail) ++ '?' :: (qstr ++ ' ' :: (str "HTTP/" ++ version))).dropWhile
        (fun c => c != '?' && c != ' ')) =
      some ⟨method, '/' :: ptail, some ('?' :: qstr), version⟩
    obtain ⟨ht, hd⟩ := takeWhile_append_stop (fun c => c != '?' && c != ' ')
      ('/' :: ptail) '?' (qstr ++ ' ' :: (str "HTTP/" ++ version)) hpathc (by decide)
    rw [ht, hd, reqLineAfterPath_question]
    obtain ⟨ht2, hd2⟩ := takeWhile_append_stop (fun c => c != ' ')
      qstr ' ' (str "HTTP/" ++ version) hqc (by decide)
    rw [ht2, hd2]
    rw [if_neg (by simpa [List.isEmpty_iff] using hqne)]
    rw [reqTail_serialize version hv]
    rfl

/-! #### The header and argument loops on clean serialised input -/

theorem pyLstrip_cons_space (v : Bytes) : pyLstrip (' ' :: v) = pyLstrip v := rfl

theorem headerLine_eq (kv : Bytes × Bytes) :
    headerLine kv = kv.1 ++ ':' :: (' ' :: kv.2) := by
  show kv.1 ++ str ": " ++ kv.2 = _
  rw [List.append_assoc]
  rfl

theorem parseHeadersLoop_clean (hs : List (Bytes × Bytes)) :
    ∀ d : CIDict Bytes, (∀ kv ∈ hs, (∀ c ∈ kv.1, c ≠ ':') ∧ pyLstrip kv.2 = kv.2) →
      parseHeadersLoop d (hs.map headerLine) =
        (hs.foldl (fun d kv => d.setItem (pyTitle kv.1) kv.2) d, false) := by
  induction hs with
  | nil => intro d _; rfl
  | cons kv rest ih =>
    intro d h
    obtain ⟨hk, hv⟩ := h kv (List.mem_cons_self _ _)
    have h' : ∀ kv' ∈ rest, (∀ c ∈ kv'.1, c ≠ ':') ∧ pyLstrip kv'.2 = kv'.2 :=
      fun kv' hm => h kv' (List.mem_cons_of_mem _ hm)
    show parseHeadersLoop d (headerLine kv :: rest.map headerLine) = _
    simp only [parseHeadersLoop]
    rw [headerLine_eq, splitFirst_append ':' kv.1 _ hk]
    show parseHeadersLoop (d.setItem (pyTitle kv.1) (pyLstrip (' ' :: kv.2)))
      (rest.map headerLine) = _
    rw [pyLstrip_cons_space, hv, ih _ h']
    rfl

theorem parseArgsLoop_clean (qs : List (Bytes × Bytes)) :
    ∀ args : List (Bytes × Bytes), (∀ kv ∈ qs, ∀ c ∈ kv.1, c ≠ '=') →
      parseArgsLoop args (qs.map (fun kv => kv.1 ++ ['='] ++ kv.2)) =
        (qs.foldl (fun a kv => aset kv.1 kv.2 a) args, false) := by
  induction qs with
  | nil => intro args _; rfl
  | cons kv rest ih =>
    intro args h
    have hk := h kv (List.mem_cons_self _ _)
    have h' : ∀ kv' ∈ rest, ∀ c ∈ kv'.1, c ≠ '=' :=
      fun kv' hm => h kv' (List.mem_cons_of_mem _ hm)
    have hfield : kv.1 ++ ['='] ++ kv.2 = kv.1 ++ '=' :: kv.2 := by
      rw [List.append_assoc]
      rfl
    show parseArgsLoop args ((kv.1 ++ ['='] ++ kv.2) :: _) = _
    simp only [parseArgsLoop]
    rw [hfield, splitFirst_append '=' kv.1 _ hk]
    show parseArgsLoop (aset kv.1 kv.2 args) (rest.map _) = _
    rw [ih _ h']
    rfl

/-! #### Lookups in the accumulated folds -/

theorem foldl_lastValue_const {α : Type} (rest : List (Bytes × α)) (lk : Bytes) :
    ∀ acc : Option α, (∀ kv ∈ rest, pyLower kv.1 ≠ lk) →
      rest.foldl (fun acc kv => if pyLower kv.1 = lk then some kv.2 else acc) acc = acc := by
  induction rest with
  | nil => intro acc _; rfl
  | cons kv rest ih =>
    intro acc h
    have hne := h kv (List.mem_cons_self _ _)
    have h' : ∀ kv' ∈ rest, pyLower kv'.1 ≠ lk :=
      fun kv' hm => h kv' (List.mem_cons_of_mem _ hm)
    rw [List.foldl_cons, if_neg hne]
    exact ih acc h'

theorem lastValueFor_mem {α : Type} (ops : List (Bytes × α))
    (hpw : ops.Pairwise (fun a b => pyLower a.1 ≠ pyLower b.1)) :
    ∀ {k : Bytes} {v : α}, (k, v) ∈ ops → lastValueFor (pyLower k) ops = some v := by
  induction ops with
  | nil => intro k v hmem; cases hmem
  | cons kv0 rest ih =>
    intro k v hmem
    obtain ⟨hhead, hrest⟩ := List.pairwise_cons.mp hpw
    rcases List.mem_cons.mp hmem with heq | hmemr
    · cases heq
      show rest.foldl _ (if pyLower k = pyLower k then some v else none) = some v
      rw [if_pos rfl]
      exact foldl_lastValue_const rest (pyLower k) (some v)
        (fun kv' hm => Ne.symm (hhead kv' hm))
    · have hne : pyLower kv0.1 ≠ pyLower k := hhead (k, v) hmemr
      show rest.foldl _ (if pyLower kv0.1 = pyLower k then some kv0.2 else none) = some v
      rw [if_neg hne]
      exact ih hrest hmemr

theorem foldl_aset_const {α : Type} (rest : List (Bytes × α)) (k : Bytes) :
    ∀ acc : List (Bytes × α), (∀ kv ∈ rest, kv.1 ≠ k) →
      aget k (rest.foldl (fun a kv => aset kv.1 kv.2 a) acc) = aget k acc := by
  induction rest with
  | nil => intro acc _; rfl
  | cons kv rest ih =>
    intro acc h
    have hne := h kv (List.mem_cons_self _ _)
    have h' : ∀ kv' ∈ rest, kv'.1 ≠ k :=
      fun kv' hm => h kv' (List.mem_cons_of_mem _ hm)
    rw [List.foldl_cons, ih _ h', aget_aset, if_neg (fun he => hne he.symm)]

theorem aget_fold_aset {α : Type} (qs : List (Bytes × α))
    (hpw : qs.Pairwise (fun a b => a.1 ≠ b.1)) :
    ∀ {k : Bytes} {v : α} (acc : List (Bytes × α)), (k, v) ∈ qs →
      aget k (qs.foldl (fun a kv => aset kv.1 kv.2 a) acc) = some v := by
  induction qs with
  | nil => intro k v acc hmem; cases hmem
  | cons kv0 rest ih =>
    intro k v acc hmem
    obtain ⟨hhead, hrest⟩ := List.pairwise_cons.mp hpw
    rcases List.mem_cons.mp hmem with heq | hmemr
    · cases heq
      rw [List.foldl_cons]
      rw [foldl_aset_const rest k _ (fun kv' hm => Ne.symm (hhead kv' hm))]
      rw [aget_aset, if_pos rfl]
    · rw [List.foldl_cons]
      exact ih hrest _ hmemr

/-! #### Lookup in the header fold, and the main C7 theorem -/

theorem build_getItem_eq {α : Type} (ops : List (Bytes × α)) (k' : Bytes) :
    (build ops).getItem k' = lastValueFor (pyLower k') ops := by
  have hinv := inv_build_from ops CIDict.empty (fun _ => none) inv_empty
  have hget := getItem_eq_of_inv hinv k'
  rw [foldm_eq_lastValueFor] at hget
  exact hget

theorem get_fold_setItem_title (hs : List (Bytes × Bytes))
    (hhpw : hs.Pairwise (fun a b => pyLower a.1 ≠ pyLower b.1))
    {kv : Bytes × Bytes} (hkv : kv ∈ hs) {k' : Bytes} (hk' : pyLower k' = pyLower kv.1) :
    (hs.foldl (fun d kv => d.setItem (pyTitle kv.1) kv.2) CIDict.empty).get k' =
      some kv.2 := by
  have hfold : hs.foldl (fun d kv => d.setItem (pyTitle kv.1) kv.2) CIDict.empty =
      build (hs.map (fun kv => (pyTitle kv.1, kv.2))) := by
    unfold build
    rw [List.foldl_map]
  show (hs.foldl (fun d kv => d.setItem (pyTitle kv.1) kv.2) CIDict.empty).getItem k' =
    some kv.2
  rw [hfold, build_getItem_eq]
  have hpw' : (hs.map (fun kv => (pyTitle kv.1, kv.2))).Pairwise
      (fun a b => pyLower a.1 ≠ pyLower b.1) := by
    rw [List.pairwise_map]
    refine hhpw.imp ?_
    intro a b hab
    simpa [pyLower_pyTitle] using hab
  have hmem : (pyTitle kv.1, kv.2) ∈ hs.map (fun kv => (pyTitle kv.1, kv.2)) :=
    List.mem_map_of_mem _ hkv
  have hlast := lastValueFor_mem _ hpw' hmem
  rw [hk', ← pyLower_pyTitle kv.1]
  exact hlast

theorem serializeQuery_mem (qs : List (Bytes × Bytes)) (c : Char)
    (hc : c ∈ serializeQuery qs) :
    c = '&' ∨ ∃ kv ∈ qs, c ∈ kv.1 ++ ['='] ++ kv.2 := by
  induction qs with
  | nil => cases hc
  | cons kv rest ih =>
    cases rest with
    | nil => exact Or.inr ⟨kv, List.mem_cons_self _ _, hc⟩
    | cons kv2 rest2 =>
      have hc' : c ∈ kv.1 ++ ['='] ++ kv.2 ++ ['&'] ++ serializeQuery (kv2 :: rest2) := hc
      simp only [List.mem_append, List.mem_singleton] at hc'
      rcases hc' with ⟨⟨⟨h1 | h2⟩ | h3⟩ | h4⟩ | h5
      · exact Or.inr ⟨kv, List.mem_cons_self _ _, by simp [h1]⟩
      · exact Or.inr ⟨kv, List.mem_cons_self _ _, by simp [h2]⟩
      · exact Or.inr ⟨kv, List.mem_cons_self _ _, by simp [h3]⟩
      · exact Or.inl h4
      · rcases ih h5 with ha | ⟨kv', hkv', hm⟩
        · exact Or.inl ha
        · exact Or.inr ⟨kv', List.mem_cons_of_mem _ hkv', hm⟩

theorem str_colonspace_no_cr : ∀ c ∈ str ": ", c ≠ '\r' := by decide

theorem str_httpslash_no_cr : ∀ c ∈ str "HTTP/", c ≠ '\r' := by decide

theorem httpMethods_no_cr : ∀ m ∈ httpMethods, ∀ c ∈ m, c ≠ '\r' := by decide

theorem httpVersions_no_cr : ∀ v ∈ httpVersions, ∀ c ∈ v, c ≠ '\r' := by decide

/-- **C7.** For every well-formed request — listed method and version, a
`/`-rooted path free of `?`, space and CR, `&`-separated `k=v` query fields
and `k: v` header lines whose pieces avoid the delimiter characters — the
parser reconstructs the method, the routing path (the part before `?`), the
version, every query argument, and every header value exactly; and each
header value is found under *any* casing of its key. -/
theorem c7_parser_reconstructs_wellformed_request
    (method path version : Bytes) (q : Option (List (Bytes × Bytes)))
    (hs : List (Bytes × Bytes))
    (hm : method ∈ httpMethods) (hv : version ∈ httpVersions)
    (hhead : path.head? = some '/')
    (hpathc : ∀ c ∈ path, (c != '?' && c != ' ') = true)
    (hpathr : ∀ c ∈ path, c ≠ '\r')
    (hq : ∀ qs, q = some qs → qs ≠ [] ∧
      (∀ kv ∈ qs, ∀ c ∈ kv.1, c ≠ '=') ∧
      (∀ kv ∈ qs, ∀ c ∈ kv.1 ++ ['='] ++ kv.2, c ≠ '&' ∧ c ≠ ' ' ∧ c ≠ '\r') ∧
      qs.Pairwise (fun a b => a.1 ≠ b.1))
    (hhne : hs ≠ [])
    (hhk : ∀ kv ∈ hs, (∀ c ∈ kv.1, c ≠ ':') ∧ (∀ c ∈ kv.1, c ≠ '\r') ∧
      pyLstrip kv.2 = kv.2 ∧ (∀ c ∈ kv.2, c ≠ '\r'))
    (hhpw : hs.Pairwise (fun a b => pyLower a.1 ≠ pyLower b.1)) :
    (parseHeaders Conn.init (serializeReq method path q version hs)).cmd = method ∧
    (parseHeaders Conn.init (serializeReq method path q version hs)).path = path ∧
    (parseHeaders Conn.init (serializeReq method path q version hs)).httpver = version ∧
    (∀ kv ∈ hs, ∀ k', pyLower k' = pyLower kv.1 →
      (parseHeaders Conn.init (serializeReq method path q version hs)).headers.get k' =
        some kv.2) ∧
    (∀ qs, q = some qs → ∀ kv ∈ qs,
      aget kv.1 (parseHeaders Conn.init (serializeReq method path q version hs)).args =
        some kv.2) ∧
    (q = none → (parseHeaders Conn.init (serializeReq method path q version hs)).args = []) := by
  have hHsp : str " HTTP/" = ' ' :: str "HTTP/" := by decide
  have hclean : ∀ kv ∈ hs, (∀ c ∈ kv.1, c ≠ ':') ∧ pyLstrip kv.2 = kv.2 :=
    fun kv hkv => ⟨(hhk kv hkv).1, (hhk kv hkv).2.2.1⟩
  have hlinecr : ∀ kv ∈ hs, ∀ c ∈ headerLine kv, c ≠ '\r' := by
    intro kv hkv c hc
    have hc' : c ∈ kv.1 ++ str ": " ++ kv.2 := hc
    simp only [List.mem_append] at hc'
    rcases hc' with ⟨h1 | h2⟩ | h3
    · exact (hhk kv hkv).2.1 c h1
    · exact str_colonspace_no_cr c h2
    · exact (hhk kv hkv).2.2.2 c h3
  cases q with
  | none =>
    have hdata : serializeReq method path none version hs =
        (method ++ ' ' :: (path ++ ' ' :: (str "HTTP/" ++ version))) ++ CRLF ++
          serializeHeaders hs := by
      show method ++ [' '] ++ path ++ [] ++ str " HTTP/" ++ version ++ CRLF ++
        serializeHeaders hs = _
      rw [hHsp]
      simp [List.append_assoc]
    have hR : ∀ c ∈ method ++ ' ' :: (path ++ ' ' :: (str "HTTP/" ++ version)), c ≠ '\r' := by
      intro c hc
      simp only [List.mem_append, List.mem_cons] at hc
      rcases hc with h1 | h2 | h3 | h4 | h5 | h6
      · exact httpMethods_no_cr method hm c h1
      · simp [h2]
      · exact hpathr c h3
      · simp [h4]
      · exact str_httpslash_no_cr c h5
      · exact httpVersions_no_cr version hv c h6
    have hsplit : splitFirstSub CRLF (serializeReq method path none version hs) =
        some (method ++ ' ' :: (path ++ ' ' :: (str "HTTP/" ++ version)),
          serializeHeaders hs) := by
      rw [hdata]
      exact splitFirstSub_crlf_append _ _ hR
    have hreqline : reqLineOf (serializeReq method path none version hs) =
        method ++ ' ' :: (path ++ ' ' :: (str "HTTP/" ++ version)) := by
      unfold reqLineOf
      rw [hsplit]
    have hlines : hdrLinesOf (serializeReq method path none version hs) =
        hs.map headerLine := by
      unfold hdrLinesOf
      rw [hsplit]
      exact splitCRLF_serializeHeaders hs hhne hlinecr
    have hmatch := reqLineMatch_serialize_none method path version hm hv hhead hpathc
    have hloop := parseHeadersLoop_clean hs CIDict.empty hclean
    have hconn : parseHeaders Conn.init (serializeReq method path none version hs) =
        { headers := hs.foldl (fun d kv => d.setItem (pyTitle kv.1) kv.2) CIDict.empty,
          body := none, cmd := method, path := path, httpver := version,
          args := [], multipartArgs := [], files := [], respHeaders := [] } := by
      unfold parseHeaders
      rw [hreqline, hmatch, hlines]
      simp only [Conn.init]
      rw [hloop]
      rfl
    rw [hconn]
    refine ⟨rfl, rfl, rfl, ?_, ?_, fun _ => rfl⟩
    · intro kv hkv k' hk'
      exact get_fold_setItem_title hs hhpw hkv hk'
    · intro qs hqs
      cases hqs
  | some qs =>
    obtain ⟨hqne, hqk, hqparts, hqpw⟩ := hq qs rfl
    have hqs_space : ∀ c ∈ serializeQuery qs, (c != ' ') = true := by
      intro c hc
      rcases serializeQuery_mem qs c hc with ha | ⟨kv, hkv, hmem⟩
      · simp [ha]
      · have := (hqparts kv hkv c hmem).2.1
        simpa using this
    have hqs_cr : ∀ c ∈ serializeQuery qs, c ≠ '\r' := by
      intro c hc
      rcases serializeQuery_mem qs c hc with ha | ⟨kv, hkv, hmem⟩
      · simp [ha]
      · exact (hqparts kv hkv c hmem).2.2
    have hqs_amp : ∀ kv ∈ qs, ∀ c ∈ kv.1 ++ ['='] ++ kv.2, c ≠ '&' :=
      fun kv hkv c hc => (hqparts kv hkv c hc).1
    have hdata : serializeReq method path (some qs) version hs =
        (method ++ ' ' ::
          (path ++ '?' :: (serializeQuery qs ++ ' ' :: (str "HTTP/" ++ version)))) ++
          CRLF ++ serializeHeaders hs := by
      show method ++ [' '] ++ path ++ ('?' :: serializeQuery qs) ++ str " HTTP/" ++
        version ++ CRLF ++ serializeHeaders hs = _
      rw [hHsp]
      simp [List.append_assoc]
    have hR : ∀ c ∈ method ++ ' ' ::
        (path ++ '?' :: (serializeQuery qs ++ ' ' :: (str "HTTP/" ++ version))),
        c ≠ '\r' := by
      intro c hc
      simp only [List.mem_append, List.mem_cons] at hc
      rcases hc with h1 | h2 | h3 | h4 | h5 | h6 | h7 | h8
      · exact httpMethods_no_cr method hm c h1
      · simp [h2]
      · exact hpathr c h3
      · simp [h4]
      · exact hqs_cr c h5
      · simp [h6]
      · exact str_httpslash_no_cr c h7
      · exact httpVersions_no_cr version hv c h8
    have hsplit : splitFirstSub CRLF (serializeReq method path (some qs) version hs) =
        some (method ++ ' ' ::
          (path ++ '?' :: (serializeQuery qs ++ ' ' :: (str "HTTP/" ++ version))),
          serializeHeaders hs) := by
      rw [hdata]
      exact splitFirstSub_crlf_append _ _ hR
    have hreqline : reqLineOf (serializeReq method path (some qs) version hs) =
        method ++ ' ' ::
          (path ++ '?' :: (serializeQuery qs ++ ' ' :: (str "HTTP/" ++ version))) := by
      unfold reqLineOf
      rw [hsplit]
    have hlines : hdrLinesOf (serializeReq method path (some qs) version hs) =
        hs.map headerLine := by
      unfold hdrLinesOf
      rw [hsplit]
      exact splitCRLF_serializeHeaders hs hhne hlinecr
    have hmatch := reqLineMatch_serialize_some method path version (serializeQuery qs)
      hm hv hhead hpathc (serializeQuery_ne_nil qs hqne) hqs_space
    have hloop := parseHeadersLoop_clean hs CIDict.empty hclean
    have hargsplit : splitChar '&' (serializeQuery qs) =
        qs.map (fun kv => kv.1 ++ ['='] ++ kv.2) :=
      splitChar_serializeQuery qs hqne hqs_amp
    have hargloop := parseArgsLoop_clean qs [] hqk
    have hconn : parseHeaders Conn.init (serializeReq method path (some qs) version hs) =
        { headers := hs.foldl (fun d kv => d.setItem (pyTitle kv.1) kv.2) CIDict.empty,
          body := none, cmd := method, path := path, httpver := version,
          args := qs.foldl (fun a kv => aset kv.1 kv.2 a) [],
          multipartArgs := [], files := [], respHeaders := [] } := by
      unfold parseHeaders
      rw [hreqline, hmatch, hlines]
      simp only [Conn.init]
      rw [hloop]
      simp only [List.drop_succ_cons, List.drop_zero]
      rw [hargsplit, hargloop]
      rfl
    rw [hconn]
    refine ⟨rfl, rfl, rfl, ?_, ?_, ?_⟩
    · intro kv hkv k' hk'
      exact get_fold_setItem_title hs hhpw hkv hk'
    · intro qs' hqs' kv hkv
      cases hqs'
      exact aget_fold_aset qs hqpw [] hkv
    · intro hnone
      cases hnone

/-- Witness for C7: a concrete `GET /a?x=1 HTTP/1.1` request with `Host` and
`X-K` headers; the Host value is found under the casing `HOST`. -/
theorem c7_parser_reconstructs_wellformed_request_witness :
    (parseHeaders Conn.init (serializeReq (str "GET") (str "/a")
      (some [(str "x", str "1")]) (str "1.1")
      [(str "Host", str "example.com"), (str "X-K", str "v")])).cmd = str "GET" ∧
    (parseHeaders Conn.init (serializeReq (str "GET") (str "/a")
      (some [(str "x", str "1")]) (str "1.1")
      [(str "Host", str "example.com"), (str "X-K", str "v")])).path = str "/a" ∧
    (parseHeaders Conn.init (serializeReq (str "GET") (str "/a")
      (some [(str "x", str "1")]) (str "1.1")
      [(str "Host", str "example.com"), (str "X-K", str "v")])).httpver = str "1.1" ∧
    (parseHeaders Conn.init (serializeReq (str "GET") (str "/a")
      (some [(str "x", str "1")]) (str "1.1")
      [(str "Host", str "example.com"), (str "X-K", str "v")])).headers.get (str "HOST") =
      some (str "example.com") ∧
    aget (str "x") (parseHeaders Conn.init (serializeReq (str "GET") (str "/a")
      (some [(str "x", str "1")]) (str "1.1")
      [(str "Host", str "example.com"), (str "X-K", str "v")])).args = some (str "1") :=
  have h := c7_parser_reconstructs_wellformed_request (str "GET") (str "/a")
    (str "1.1") (some [(str "x", str "1")])
    [(str "Host", str "example.com"), (str "X-K", str "v")]
    (by decide) (by decide) (by decide) (by decide) (by decide)
    (by intro qs hqs; cases hqs; exact ⟨by decide, by decide, by decide, by decide⟩)
    (by decide) (by decide) (by decide)
  ⟨h.1, h.2.1, h.2.2.1,
    h.2.2.2.1 (str "Host", str "example.com") (by decide) (str "HOST") (by decide),
    h.2.2.2.2.1 [(str "x", str "1")] rfl (str "x", str "1") (by decide)⟩

end CmyuiWeb
